import Mathlib

/-!
# Estimating aggregations over joins: the sample-join estimator and the reservoir samplers

A shallow embedding of `generic_sample_join` (quality_comparison/qualityComparison.cpp)
and of the weighted reservoir samplers (runtime_comparison/main.cpp).

Conventions of the embedding:

* a C++ `double` is an exact rational number (`ℚ`): the properties proved here are the
  algebraic ones, rounding is not modelled;
* an `int` that can be negative (`m`, `S_size`) is an `Int`; an index into a vector is a
  `Nat`, and reading a vector outside its bounds is the failure `Failure.undefined`;
* a failing `assert` is the failure `Failure.assertion`;
* the `static` variables of `generic_sample_join` are the record `Cache`, passed in and
  returned by every call;
* random choices are arguments: the range sampler is the function the caller passes, and
  the raw random numbers consumed by the join materialiser are the stream `rnd`.
-/

namespace SampleJoins

/-- A row of R1 (A, B) or of R2 (A, C): `typedef pair<double,double> pdd`. -/
abbrev pdd := ℚ × ℚ

/-- A row (A, B, C) of the join: `typedef tuple<double,double,double> tdd`. -/
abbrev tdd := ℚ × ℚ × ℚ

/-- The stratified probe relation, `map<double, vector<pdd> >`: an association list whose
keys are strictly increasing, as a `std::map` is iterated. -/
abbrev Tstrat := List (ℚ × List pdd)

/-- How a call can fail: a failed `assert`, or behaviour the language leaves undefined
(an index outside a vector, a division of the draw size by a zero selectivity). -/
inductive Failure where
  | assertion
  | undefined
  deriving DecidableEq, Repr

/-- Modelled from the spec: `stratify` is declared in sampleJoins.h, which is not among the
sources. Spec 4.2: per-key stratum lists, a partition of the relation by join key that
preserves the original row order within a stratum. Keys are listed in increasing order. -/
def stratify (R : List pdd) : Tstrat :=
  (((R.map Prod.fst).dedup).mergeSort (fun a b => decide (a ≤ b))).map
    (fun k => (k, R.filter (fun t => decide (t.1 = k))))

/-- Modelled from the spec: `get_cdf` is declared in sampleJoins.h, which is not among the
sources. Spec 4.1: for a weight sequence w[0..k) the sequence c[0..k) with
c[i] = w[0] + ... + w[i]. -/
def get_cdf (w : List ℚ) : List ℚ :=
  (List.range w.length).map (fun i => (w.take (i + 1)).sum)

/-- Apply a fallible function to every element, failing as soon as one application fails. -/
def allSome {α β : Type} (f : α → Option β) : List α → Option (List β)
  | [] => some []
  | a :: rest =>
    match f a, allSome f rest with
    | some b, some bs => some (b :: bs)
    | _, _ => none

/-- Modelled from the spec: the partner draw of `minijoin` (sampleJoins.h, not among the
sources). Spec 4.7: one probe-side partner drawn uniformly at random from the matching
stratum. The partner of the `i`-th sampled build tuple `t1` is the row of the stratum of
`t1.A` at position `rnd i` reduced modulo the stratum size (a uniform draw, written as
`wr_uniform_sample` of main.cpp writes it, `data[rand()%n]`). There is no partner when the
key has no stratum. -/
def partner (R2_stratified : Tstrat) (rnd : Nat → Nat) (i : Nat) (t1 : pdd) : Option tdd :=
  match R2_stratified.lookup t1.1 with
  | none => none
  | some stratum =>
    match stratum[rnd i % stratum.length]? with
    | none => none
    | some t2 => some (t1.1, t1.2, t2.2)

/-- Modelled from the spec: `minijoin` is declared in sampleJoins.h, which is not among the
sources. Spec 4.7: for every sampled build-side tuple, one probe-side partner drawn
uniformly at random from the matching stratum, giving one join tuple (A, B, C) per sampled
tuple, in order; a build tuple whose key has no matching stratum must not have been
selected (here: no result). -/
def minijoin (S : List pdd) (R2_stratified : Tstrat) (rnd : Nat → Nat) : Option (List tdd) :=
  allSome (fun p => partner R2_stratified rnd p.1 p.2) S.enum

/-- The value `norm` of lines 110-120: the h2-weights of a stratum accumulated from 0. -/
def stratum_norm (h2 : ℚ → ℚ) (stratum : List pdd) : ℚ :=
  stratum.foldl (fun norm t2 => norm + h2 t2.2) 0

/-- The value `filtered_norm` of lines 111-121: the h2-weights of the rows of a stratum
that pass the R2 filter, accumulated from 0. -/
def stratum_filtered_norm (h2 : ℚ → ℚ) (R2_filter : ℚ → ℚ → Bool) (stratum : List pdd) : ℚ :=
  stratum.foldl (fun fnorm t2 => if R2_filter t2.1 t2.2 then fnorm + h2 t2.2 else fnorm) 0

/-- The map `R2_stratum_weights` after the loop of lines 108-123. -/
def R2_stratum_weights (h2 : ℚ → ℚ) (R2_stratified : Tstrat) : List (ℚ × ℚ) :=
  R2_stratified.map (fun stratum => (stratum.1, stratum_norm h2 stratum.2))

/-- The map `R2_filtered_stratum_weights` after the loop of lines 108-123. -/
def R2_filtered_stratum_weights (h2 : ℚ → ℚ) (R2_filter : ℚ → ℚ → Bool)
    (R2_stratified : Tstrat) : List (ℚ × ℚ) :=
  R2_stratified.map (fun stratum => (stratum.1, stratum_filtered_norm h2 R2_filter stratum.2))

/-- The map `R2_stratum_cdfs` after the loop of lines 108-123. The function builds it and
never reads it again. -/
def R2_stratum_cdfs (h2 : ℚ → ℚ) (R2_stratified : Tstrat) : List (ℚ × List ℚ) :=
  R2_stratified.map (fun stratum => (stratum.1, get_cdf (stratum.2.map (fun t2 => h2 t2.2))))

/-- The C++ `weights[key]` on a `map<double,double>`: the stored value, 0.0 for a key the
map does not hold. -/
def map_at (weights : List (ℚ × ℚ)) (key : ℚ) : ℚ :=
  (weights.lookup key).getD 0

/-- The static variables of `generic_sample_join` (lines 126-130). -/
structure Cache where
  normalisation : ℚ
  filtered_normalisation : ℚ
  R1_sample_weights : List ℚ
  R1_filtered_sample_weights : List ℚ
  R1_sample_weights_cdf : Option (List ℚ)
  deriving DecidableEq, Repr

/-- The values the static variables are initialised with by the first call (lines 126-130). -/
def Cache.init (R1 : List pdd) : Cache :=
  { normalisation := 0
    filtered_normalisation := 0
    R1_sample_weights := List.replicate R1.length 0
    R1_filtered_sample_weights := List.replicate R1.length 0
    R1_sample_weights_cdf := none }

/-- Lines 142-156: the normalisation factors and the sampling weights, recomputed. -/
def recompute (h1 : ℚ → ℚ → ℚ) (R1 : List pdd) (R1_filter : ℚ → ℚ → Bool)
    (weights filtered_weights : List (ℚ × ℚ)) : Cache :=
  { normalisation :=
      R1.foldl (fun norm t1 => norm + h1 t1.1 t1.2 * map_at weights t1.1) 0
    filtered_normalisation :=
      R1.foldl (fun fnorm t1 =>
        if R1_filter t1.1 t1.2 then fnorm + h1 t1.1 t1.2 * map_at filtered_weights t1.1
        else fnorm) 0
    R1_sample_weights := R1.map (fun t1 => h1 t1.1 t1.2 * map_at weights t1.1)
    R1_filtered_sample_weights :=
      R1.map (fun t1 =>
        if R1_filter t1.1 t1.2 then h1 t1.1 t1.2 * map_at filtered_weights t1.1 else 0)
    R1_sample_weights_cdf := none }

/-- Lines 104-161: the static variables after the cache part of a call. -/
def refresh_cache (h1 : ℚ → ℚ → ℚ) (h2 : ℚ → ℚ) (R1 R2 : List pdd)
    (R1_filter R2_filter : ℚ → ℚ → Bool)
    (recompute_normalisation recompute_cdf : Bool) (c : Cache) : Cache :=
  let R2_stratified := stratify R2
  let c1 : Cache :=
    if recompute_normalisation || recompute_cdf then { c with R1_sample_weights_cdf := none }
    else c
  let c2 : Cache :=
    if recompute_normalisation then
      recompute h1 R1 R1_filter (R2_stratum_weights h2 R2_stratified)
        (R2_filtered_stratum_weights h2 R2_filter R2_stratified)
    else c1
  if recompute_cdf then { c2 with R1_sample_weights_cdf := some (get_cdf c2.R1_sample_weights) }
  else c2

/-- Line 166: `round(over_sampling_constant + ceil(over_sampling_factor*m/filter_selectivity))`
with the factor 1.2 and the constant 100. -/
def S_size (m : Int) (filter_selectivity : ℚ) : Int :=
  100 + ⌈(6 / 5 : ℚ) * (m : ℚ) / filter_selectivity⌉

/-- Lines 174-175 for one position `i`: the build tuple `R1[S_indices[i]]`; its sampling
weight `R1_sample_weights[S_indices[i]]` is read as well. -/
def drawn_tuple (R1 : List pdd) (R1_sample_weights : List ℚ) (S_indices : List Nat)
    (i : Nat) : Option pdd :=
  match S_indices[i]? with
  | none => none
  | some j =>
    match R1[j]?, R1_sample_weights[j]? with
    | some t1, some _ => some t1
    | _, _ => none

/-- Whether a join tuple passes both filters: `R1_filter(tA, tB) && R2_filter(tA, tC)`. -/
def passes (R1_filter R2_filter : ℚ → ℚ → Bool) (t : tdd) : Bool :=
  R1_filter t.1 t.2.1 && R2_filter t.1 t.2.2

/-- Lines 171-177: the materialised sample of a call whose draw size is `size`. -/
def materialise (R1 : List pdd) (R2_stratified : Tstrat) (R1_sample_weights : List ℚ)
    (S_indices : List Nat) (size : Nat) (rnd : Nat → Nat) : Option (List tdd) :=
  match allSome (drawn_tuple R1 R1_sample_weights S_indices) (List.range size) with
  | none => none
  | some S => minijoin S R2_stratified rnd

/-- Lines 191-198, on the sample listed from its back: while `filtered_sample_size > m`
the last tuple is popped, and counted off when it passes the filter. Popping from an empty
sample has no result. -/
def trim_back (pass : tdd → Bool) (m : Int) : List tdd → Int → Option (List tdd × Int)
  | [], filtered_sample_size =>
    if filtered_sample_size > m then none else some ([], filtered_sample_size)
  | t :: rest, filtered_sample_size =>
    if filtered_sample_size > m then
      trim_back pass m rest (if pass t then filtered_sample_size - 1 else filtered_sample_size)
    else some (t :: rest, filtered_sample_size)

/-- Lines 179-198: the count of filter-passing tuples, the assertion, and the trimming
loop; the result is the retained sample and the final `filtered_sample_size`. -/
def trim (pass : tdd → Bool) (m : Int) (sample : List tdd) : Except Failure (List tdd × Int) :=
  let filtered_sample_size : Int := (sample.countP pass : Nat)
  if filtered_sample_size < m then Except.error Failure.assertion
  else
    match trim_back pass m sample.reverse filtered_sample_size with
    | none => Except.error Failure.undefined
    | some (back, count) => Except.ok (back.reverse, count)

/-- Lines 201-209: the accumulator `estimate` after the loop over the retained sample. -/
def accumulate (h1 : ℚ → ℚ → ℚ) (h2 : ℚ → ℚ) (aggregation_f : ℚ → ℚ → ℚ → ℚ)
    (pass : tdd → Bool) (sample : List tdd) : ℚ :=
  sample.foldl (fun estimate t =>
    if pass t then estimate + aggregation_f t.1 t.2.1 t.2.2 / (h1 t.1 t.2.1 * h2 t.2.2)
    else estimate) 0

/-- Lines 211-216: the accumulator rescaled. -/
def rescale (filtered_estimator : Bool) (c : Cache) (estimate : ℚ)
    (filtered_sample_size : Int) (sample_size : Nat) : ℚ :=
  if filtered_estimator then estimate * (c.filtered_normalisation / (filtered_sample_size : ℚ))
  else estimate * (c.normalisation / (sample_size : ℚ))

/-- Lines 163-216: the sampling and estimation part of a call, run on the static variables
`c` as the cache part left them. -/
def sample_and_estimate (h1 : ℚ → ℚ → ℚ) (h2 : ℚ → ℚ) (m : Int) (R1 R2 : List pdd)
    (range_sampler : Int → List ℚ → Option (List ℚ) → List Nat)
    (aggregation_f : ℚ → ℚ → ℚ → ℚ) (R1_filter R2_filter : ℚ → ℚ → Bool)
    (filtered_estimator : Bool) (filter_selectivity : ℚ)
    (rnd : Nat → Nat) (c : Cache) : Except Failure ℚ :=
  if filter_selectivity = 0 then Except.error Failure.undefined
  else if S_size m filter_selectivity < 0 then Except.error Failure.undefined
  else
    let S_indices :=
      range_sampler (S_size m filter_selectivity) c.R1_sample_weights c.R1_sample_weights_cdf
    match materialise R1 (stratify R2) c.R1_sample_weights S_indices
        (S_size m filter_selectivity).toNat rnd with
    | none => Except.error Failure.undefined
    | some sample =>
      match trim (passes R1_filter R2_filter) m sample with
      | Except.error e => Except.error e
      | Except.ok (retained, filtered_sample_size) =>
        Except.ok (rescale filtered_estimator c
          (accumulate h1 h2 aggregation_f (passes R1_filter R2_filter) retained)
          filtered_sample_size retained.length)

/-- The function `generic_sample_join` (lines 93-217): the estimate and the static
variables the call leaves behind, or the failure. -/
def generic_sample_join (h1 : ℚ → ℚ → ℚ) (h2 : ℚ → ℚ) (m : Int) (R1 R2 : List pdd)
    (range_sampler : Int → List ℚ → Option (List ℚ) → List Nat)
    (aggregation_f : ℚ → ℚ → ℚ → ℚ) (R1_filter R2_filter : ℚ → ℚ → Bool)
    (filtered_estimator : Bool) (filter_selectivity : ℚ)
    (recompute_normalisation recompute_cdf : Bool)
    (rnd : Nat → Nat) (c : Cache) : Except Failure (ℚ × Cache) :=
  let c1 := refresh_cache h1 h2 R1 R2 R1_filter R2_filter recompute_normalisation recompute_cdf c
  match sample_and_estimate h1 h2 m R1 R2 range_sampler aggregation_f R1_filter R2_filter
      filtered_estimator filter_selectivity rnd c1 with
  | Except.error e => Except.error e
  | Except.ok estimate => Except.ok (estimate, c1)


/-- The rows of R2 whose join key is `k`. -/
def matching (R2 : List pdd) (k : ℚ) : List pdd :=
  R2.filter (fun t2 => decide (t2.1 = k))

/-- The pairs of the equi-join R1 ⋈ R2: every (t1, t2) with t1 in R1, t2 in R2 and
t1.A = t2.A, in the order of the nested loops of lines 400-401. -/
def join_pairs (R1 R2 : List pdd) : List (pdd × pdd) :=
  (R1.product R2).filter (fun p => decide (p.1.1 = p.2.1))


/-- The join tuple materialised at position `i` of the sample: the build tuple drawn at
position `i` (lines 174-175) joined with its probe partner. -/
def joined (R1 : List pdd) (R2_stratified : Tstrat) (R1_sample_weights : List ℚ)
    (S_indices : List Nat) (rnd : Nat → Nat) (i : Nat) : Option tdd :=
  match drawn_tuple R1 R1_sample_weights S_indices i with
  | none => none
  | some t1 => partner R2_stratified rnd i t1

/-- The sample a call materialises at line 177, from the static variables as the cache part
of the call left them. -/
def materialised_sample (h1 : ℚ → ℚ → ℚ) (h2 : ℚ → ℚ) (m : Int) (R1 R2 : List pdd)
    (range_sampler : Int → List ℚ → Option (List ℚ) → List Nat)
    (R1_filter R2_filter : ℚ → ℚ → Bool) (filter_selectivity : ℚ)
    (recompute_normalisation recompute_cdf : Bool)
    (rnd : Nat → Nat) (c : Cache) : Option (List tdd) :=
  let c1 := refresh_cache h1 h2 R1 R2 R1_filter R2_filter recompute_normalisation recompute_cdf c
  materialise R1 (stratify R2) c1.R1_sample_weights
    (range_sampler (S_size m filter_selectivity) c1.R1_sample_weights c1.R1_sample_weights_cdf)
    (S_size m filter_selectivity).toNat rnd

/-- The sum T of lines 201-209: over the tuples of a sample that pass both filters, of
aggregation_f(A,B,C) / (h1(A,B) * h2(C)). -/
def passing_sum (h1 : ℚ → ℚ → ℚ) (h2 : ℚ → ℚ) (aggregation_f : ℚ → ℚ → ℚ → ℚ)
    (pass : tdd → Bool) (sample : List tdd) : ℚ :=
  ((sample.filter pass).map
    (fun t => aggregation_f t.1 t.2.1 t.2.2 / (h1 t.1 t.2.1 * h2 t.2.2))).sum

/-- The build relation of the end-to-end example of the spec. -/
def example_R1 : List pdd := [(1, 1), (1, 2), (2, 1)]

/-- The probe relation of the end-to-end example of the spec. -/
def example_R2 : List pdd := [(1, 10), (2, 20)]

/-- The weighting `h1_unif` of `main` (line 268). -/
def h1_unif (_A _B : ℚ) : ℚ := 1

/-- The weighting `h2_unif` of `main` (line 272). -/
def h2_unif (_C : ℚ) : ℚ := 1

/-- The weighting `h2_weighted` of `main` (line 273). -/
def h2_weighted (C : ℚ) : ℚ := C

/-- The aggregation function `aggregate_f` of `main` (line 262). -/
def aggregate_f (_A _B C : ℚ) : ℚ := C

/-- The filter `no_filter` of `main` (line 310). -/
def no_filter (_X _Y : ℚ) : Bool := true

/-- A range sampler that returns the index 0 at every position. -/
def zero_sampler (size : Int) (_w : List ℚ) (_c_w : Option (List ℚ)) : List Nat :=
  List.replicate size.toNat 0

/-- A range sampler that returns the indices 0, 1, 2, 0, 1, 2, ... -/
def cyclic_sampler (size : Int) (w : List ℚ) (_c_w : Option (List ℚ)) : List Nat :=
  (List.range size.toNat).map (fun i => i % w.length)

/-- The static variables after a call on the example relations with uniform weights that
recomputes the normalisation. -/
def example_cache (recompute_cdf : Bool) : Cache :=
  { normalisation := 3
    filtered_normalisation := 3
    R1_sample_weights := [1, 1, 1]
    R1_filtered_sample_weights := [1, 1, 1]
    R1_sample_weights_cdf := if recompute_cdf then some [1, 2, 3] else none }

/-- The join tuple of the example that the build index `j` materialises to. -/
def example_tuple (j : Nat) : tdd :=
  if j = 0 then (1, 1, 10) else if j = 1 then (1, 2, 10) else (2, 1, 20)

/-- The estimate a single sampled join tuple stands for (lines 205-214 with one retained
tuple): normalisation · f(A,B,C) / (h1(A,B) · h2(C)). -/
def tuple_estimate (h1 : ℚ → ℚ → ℚ) (h2 : ℚ → ℚ) (aggregation_f : ℚ → ℚ → ℚ → ℚ)
    (normalisation : ℚ) (t : tdd) : ℚ :=
  normalisation * (aggregation_f t.1 t.2.1 t.2.2 / (h1 t.1 t.2.1 * h2 t.2.2))

/-- The stratum the join materialiser draws the partner of a build tuple with key `k` from;
empty when R2 has no row with that key. -/
def stratum_of (R2 : List pdd) (k : ℚ) : List pdd :=
  ((stratify R2).lookup k).getD []

/-- The expected value of the per-tuple estimate under the sampling scheme of
`generic_sample_join`: the build index i is drawn with probability
R1_sample_weights[i] / normalisation and the probe partner uniformly from the stratum
matching R1[i].A, each row of the stratum with probability 1 / |stratum|. -/
def expected_estimate (h1 : ℚ → ℚ → ℚ) (h2 : ℚ → ℚ) (aggregation_f : ℚ → ℚ → ℚ → ℚ)
    (R1 R2 : List pdd) (c : Cache) : ℚ :=
  ((R1.zip c.R1_sample_weights).map (fun tw =>
    (tw.2 / c.normalisation) *
      ((stratum_of R2 tw.1.1).map (fun t2 =>
        (1 / ((stratum_of R2 tw.1.1).length : ℚ)) *
          tuple_estimate h1 h2 aggregation_f c.normalisation (tw.1.1, tw.1.2, t2.2))).sum)).sum

/-- The exact aggregate over the join: the sum of f(A,B,C) over all pairs of R1 ⋈ R2
(lines 400-412 of `main` with no filter). -/
def exact_aggregate (aggregation_f : ℚ → ℚ → ℚ → ℚ) (R1 R2 : List pdd) : ℚ :=
  ((join_pairs R1 R2).map (fun p => aggregation_f p.1.1 p.1.2 p.2.2)).sum

/-- A build relation with a single row. -/
def skew_R1 : List pdd := [(1, 1)]

/-- A probe relation whose single stratum holds two rows of different h2-weight. -/
def skew_R2 : List pdd := [(1, 1), (1, 3)]

/-- The aggregation function that counts the join tuples. -/
def count_f (_A _B _C : ℚ) : ℚ := 1

/-! ### The weighted reservoir samplers (runtime_comparison/main.cpp)

The rows `data` and the weights `w` are arrays of `char`; an array is a list, and reading
it outside its bounds is undefined. `rand()/(double)RAND_MAX` is the stream `rnd`, read in
the order of the calls of `rand`. The library functions `pow` and `log` are parameters. -/

/-- The `multimap<double,char>::insert` of an entry: the entries are kept in non-decreasing
key order and the new entry goes after the entries with an equal key (since C++11). -/
def multimap_insert {D : Type} (e : ℚ × D) : List (ℚ × D) → List (ℚ × D)
  | [] => [e]
  | x :: rest => if e.1 < x.1 then e :: x :: rest else x :: multimap_insert e rest

/-- Lines 224-226 and 249-251: `keys[i] = pow(rand()/(double)RAND_MAX, 1.0/(double)w[i])`
for i in [0, count). -/
def draw_keys (pow : ℚ → ℚ → ℚ) (rnd : Nat → ℚ) (w : List Int) (count : Nat) :
    Option (List ℚ) :=
  allSome (fun i =>
    match (w[i]? : Option Int) with
    | none => none
    | some wi => some (pow (rnd i) (1 / (wi : ℚ)))) (List.range count)

/-- Lines 228-231 and 253-256: the reservoir seeded with the first m items. -/
def seed_reservoir {D : Type} (keys : List ℚ) (data : List D) (m : Nat) :
    Option (List (ℚ × D)) :=
  match allSome (fun i =>
      match keys[i]?, data[i]? with
      | some k, some d => some (k, d)
      | _, _ => none) (List.range m) with
  | none => none
  | some entries => some (entries.foldl (fun result e => multimap_insert e result) [])

/-- Lines 234-238: one iteration of the loop of Algorithm A for the item `i`. Reading the
minimum `result.begin()` of an empty reservoir is undefined. -/
def reservoir_step {D : Type} (keys : List ℚ) (data : List D) (result : List (ℚ × D))
    (i : Nat) : Option (List (ℚ × D)) :=
  match result, keys[i]? with
  | least :: rest, some k =>
    if k > least.1 then
      match data[i]? with
      | none => none
      | some d => some (multimap_insert (k, d) rest)
    else some (least :: rest)
  | _, _ => none

/-- Lines 233-239: the loop of Algorithm A over the items listed. -/
def reservoir_loop {D : Type} (keys : List ℚ) (data : List D) :
    List Nat → List (ℚ × D) → Option (List (ℚ × D))
  | [], result => some result
  | i :: rest, result =>
    match reservoir_step keys data result i with
    | none => none
    | some result1 => reservoir_loop keys data rest result1

/-- The function `weighted_wor_reservoir_sample` (lines 222-242), Algorithm A. -/
def weighted_wor_reservoir_sample {D : Type} (pow : ℚ → ℚ → ℚ) (rnd : Nat → ℚ)
    (data : List D) (w : List Int) (n m : Nat) : Option (List (ℚ × D)) :=
  match draw_keys pow rnd w n with
  | none => none
  | some keys =>
    match seed_reservoir keys data m with
    | none => none
    | some result => reservoir_loop keys data (List.range' m (n - m)) result

/-- How a run of the exponential-jump sampler ends: with the reservoir it returns, in
undefined behaviour, or still running when the iterations allowed are used up. -/
inductive Run (α : Type) where
  | done (a : α)
  | undefined
  | unfinished
  deriving DecidableEq, Repr

/-- Lines 262-265: `while(xw > 0 && i < n) { xw -= w[i]; i++; }`, given the number of
iterations left before `i` reaches `n` at the latest. -/
def skip_items (w : List Int) (n : Nat) : Nat → ℚ → Nat → Option (ℚ × Nat)
  | 0, xw, i => some (xw, i)
  | left + 1, xw, i =>
    if xw > 0 ∧ i < n then
      match w[i]? with
      | none => none
      | some wi => skip_items w n left (xw - (wi : ℚ)) (i + 1)
    else some (xw, i)

/-- Lines 259-275: the jump loop of the exponential-jump sampler, run for at most `fuel`
iterations from the stream position `i`, the reservoir `result` and `drawn` earlier calls
of `rand`. -/
def jump_loop {D : Type} (pow : ℚ → ℚ → ℚ) (log : ℚ → ℚ) (rnd : Nat → ℚ)
    (data : List D) (w : List Int) (n : Nat) :
    Nat → Nat → List (ℚ × D) → Nat → Run (List (ℚ × D))
  | 0, _, _, _ => Run.unfinished
  | fuel + 1, i, result, drawn =>
    match result with
    | [] => Run.undefined
    | least :: rest =>
      let r := rnd drawn
      let xw := log r / log least.1
      match skip_items w n (n - i) xw i with
      | none => Run.undefined
      | some (_, i1) =>
        if i1 ≥ n then Run.done (least :: rest)
        else
          match w[i1]?, data[i1]? with
          | some wi, some d =>
            let tw := pow least.1 (wi : ℚ)
            let r2 := rnd (drawn + 1) * (1 - tw) + tw
            let key := pow r2 (1 / (wi : ℚ))
            jump_loop pow log rnd data w n fuel i1 (multimap_insert (key, d) rest) (drawn + 2)
          | _, _ => Run.undefined

/-- The function `weighted_wor_reservoir_sample_exp` (lines 247-278), Algorithm A with
exponential jumps, run for at most `fuel` iterations of its outer loop. -/
def weighted_wor_reservoir_sample_exp {D : Type} (pow : ℚ → ℚ → ℚ) (log : ℚ → ℚ)
    (rnd : Nat → ℚ) (data : List D) (w : List Int) (n m : Nat) (fuel : Nat) :
    Run (List (ℚ × D)) :=
  match draw_keys pow rnd w m with
  | none => Run.undefined
  | some keys =>
    match seed_reservoir keys data m with
    | none => Run.undefined
    | some result => jump_loop pow log rnd data w n fuel m result m

/-- The m largest values of a list of keys, largest first. -/
def largest_keys (m : Nat) (keys : List ℚ) : List ℚ :=
  (keys.insertionSort (fun a b => a ≥ b)).take m

/-- A reservoir entry together with the index of the item it was made from. -/
abbrev Tagged (D : Type) := (ℚ × D) × Nat

/-- The order in which the multimap lists two entries: by key, and two entries of equal key
in the order of their insertion, which is the order of their item indices. -/
def tag_order {D : Type} (a b : Tagged D) : Prop :=
  a.1.1 < b.1.1 ∨ (a.1.1 = b.1.1 ∧ a.2 < b.2)

/-- The insertion `multimap_insert` on entries that carry their item index. -/
def tagged_insert {D : Type} (t : Tagged D) : List (Tagged D) → List (Tagged D)
  | [] => [t]
  | x :: rest => if t.1.1 < x.1.1 then t :: x :: rest else x :: tagged_insert t rest

/-- That `tagged` lists the entries of the reservoir `result` with the indices of their
items: entry number p of `result` is (keys[i], data[i]) for the index i tagged to it, the
indices are pairwise distinct and below `j`. -/
def entries_of {D : Type} (keys : List ℚ) (data : List D) (j : Nat) (result : List (ℚ × D))
    (tagged : List (Tagged D)) : Prop :=
  result = tagged.map Prod.fst ∧ (tagged.map Prod.snd).Nodup ∧
  ∀ t ∈ tagged, t.2 < j ∧ keys[t.2]? = some t.1.1 ∧ data[t.2]? = some t.1.2

/-- The state of Algorithm A once the first `j` items are processed: the reservoir holds m
entries, listed by key and, for equal keys, by item index; its entries are items of pairwise
distinct indices below `j`; and its keys together with keys that are no larger make up
keys[0..j). -/
def reservoir_inv {D : Type} (keys : List ℚ) (data : List D) (m j : Nat)
    (result : List (ℚ × D)) : Prop :=
  ∃ tagged : List (Tagged D),
    entries_of keys data j result tagged ∧ tagged.length = m ∧
    List.Pairwise tag_order tagged ∧
    ∃ E : List ℚ, (keys.take j).Perm (result.map Prod.fst ++ E) ∧
      ∀ x ∈ E, ∀ y ∈ result.map Prod.fst, x ≤ y

/-- The function `pow` on the exponent 1, the only exponent that weights equal to 1
produce (as `1/(double)w[i]` and as `(double)w[i]`): pow(u, 1) = u. -/
def example_pow (u _e : ℚ) : ℚ := u

/-- A rational stand-in for `log` on (0, 1]: negative below 1 and zero at 1. -/
def example_log (x : ℚ) : ℚ := x - 1

/-- Four rows, each of weight 1. -/
def example_data : List Char := ['a', 'b', 'c', 'd']

/-- The weights of the four example rows. -/
def example_w : List Int := [1, 1, 1, 1]

/-- A sequence of values of `rand()/(double)RAND_MAX`. -/
def example_rnd (i : Nat) : ℚ := [1 / 2, 1 / 4, 3 / 4, 1 / 2, 1 / 2, 1 / 3].getD i 0

/-- The values of `rand()/(double)RAND_MAX` when `rand()` returns 0, 0 and RAND_MAX: the
first two rows get the same key. -/
def tie_rnd (i : Nat) : ℚ := [0, 0, 1].getD i 0

/-! ### Sequences of calls and the cached CDF -/

/-- The arguments of a call of `generic_sample_join` that the cache part of the function
(lines 104-161) reads. -/
structure Call where
  h1 : ℚ → ℚ → ℚ
  h2 : ℚ → ℚ
  R1 : List pdd
  R2 : List pdd
  R1_filter : ℚ → ℚ → Bool
  R2_filter : ℚ → ℚ → Bool
  recompute_normalisation : Bool
  recompute_cdf : Bool

/-- The static variables after a sequence of calls that returned, starting from the static
variables `c`. -/
def cache_after (c : Cache) (calls : List Call) : Cache :=
  calls.foldl (fun c0 call =>
    refresh_cache call.h1 call.h2 call.R1 call.R2 call.R1_filter call.R2_filter
      call.recompute_normalisation call.recompute_cdf c0) c

/-- That the cached CDF is absent or is the CDF of the cached sampling weight vector. -/
def cdf_current (c : Cache) : Prop :=
  c.R1_sample_weights_cdf = none ∨
    c.R1_sample_weights_cdf = some (get_cdf c.R1_sample_weights)

/-- Lines 288-290 of `exact_sampler`: the CDF it samples from, which is the one handed in,
or `get_cdf(w)` when none is handed in. -/
def exact_sampler_cdf (w : List ℚ) (c_w : Option (List ℚ)) : List ℚ :=
  match c_w with
  | none => get_cdf w
  | some c => c

/-- The weighting `h1_weighted` of `main` (line 270). -/
def h1_weighted (_A _B : ℚ) : ℚ := 1

/-- The exact aggregate over the filtered join: the sum of f(A,B,C) over the pairs of
R1 ⋈ R2 that pass both filters (lines 400-412 of `main`). -/
def exact_filtered_aggregate (aggregation_f : ℚ → ℚ → ℚ → ℚ)
    (R1_filter R2_filter : ℚ → ℚ → Bool) (R1 R2 : List pdd) : ℚ :=
  (((join_pairs R1 R2).filter
    (fun p => R1_filter p.1.1 p.1.2 && R2_filter p.2.1 p.2.2)).map
    (fun p => aggregation_f p.1.1 p.1.2 p.2.2)).sum

/-- The weight mass `w[c] + ... + w[j]` of the stream items c, ..., j. -/
def mass (w : List Int) (c j : Nat) : ℚ :=
  (((w.take (j + 1)).drop c).map (fun x => (x : ℚ))).sum

/-- The landing item as the description of the exponential jump words it: the first index
j with c ≤ j < n whose cumulative weight `w[c] + ... + w[j]` reaches the threshold xw. -/
def crossing_index (w : List Int) (n c : Nat) (xw : ℚ) : Option Nat :=
  ((List.range (n - c)).map (fun k => c + k)).find? (fun j => decide (xw ≤ mass w c j))

/-- The draws 1/4, 1/2, 1/4, 1/2, 1/2 of `rand()/(double)RAND_MAX`, in this order. -/
def jump_rnd (i : Nat) : ℚ := [1 / 4, 1 / 2, 1 / 4, 1 / 2, 1 / 2].getD i 0

theorem allSome_eq_some_iff {α β : Type} (f : α → Option β) (l : List α) (r : List β) :
    allSome f l = some r ↔ l.map f = r.map some := by
  induction l generalizing r with
  | nil => cases r <;> simp [allSome]
  | cons a rest ih =>
    cases r with
    | nil =>
      simp only [allSome, List.map_cons, List.map_nil]
      cases f a <;> cases allSome f rest <;> simp
    | cons b bs =>
      simp only [allSome, List.map_cons, List.cons.injEq]
      cases hfa : f a with
      | none => simp
      | some b1 =>
        cases hrest : allSome f rest with
        | none =>
          have := ih bs
          simp [hrest] at this ⊢
          intro _; exact this
        | some bs1 =>
          have h1 := ih bs1
          have h2 := ih bs
          simp only [hrest, true_iff] at h1
          simp only [hrest, Option.some.injEq] at h2
          simp only [Option.some.injEq, List.cons.injEq]
          constructor
          · rintro ⟨rfl, rfl⟩; exact ⟨rfl, h1⟩
          · rintro ⟨rfl, h⟩; exact ⟨rfl, h2.mpr h⟩

theorem allSome_length {α β : Type} {f : α → Option β} {l : List α} {r : List β}
    (h : allSome f l = some r) : r.length = l.length := by
  have := congrArg List.length ((allSome_eq_some_iff f l r).mp h)
  simpa using this.symm

theorem allSome_of_forall {α β : Type} (f : α → Option β) (g : α → β) (l : List α)
    (h : ∀ a ∈ l, f a = some (g a)) : allSome f l = some (l.map g) := by
  rw [allSome_eq_some_iff, List.map_map]
  exact List.map_congr_left (fun a ha => by simp [h a ha])

theorem lookup_map_key {β : Type} (g : ℚ → β) (keys : List ℚ) (k : ℚ) :
    (keys.map (fun a => (a, g a))).lookup k = if k ∈ keys then some (g k) else none := by
  induction keys with
  | nil => simp
  | cons a rest ih =>
    simp only [List.map_cons, List.lookup_cons, List.mem_cons]
    by_cases hka : k = a
    · subst hka; simp
    · have : (k == a) = false := by simpa using hka
      simp [this, ih, hka]

theorem lookup_stratify (R : List pdd) (k : ℚ) :
    (stratify R).lookup k =
      if k ∈ R.map Prod.fst then some (R.filter (fun t => decide (t.1 = k))) else none := by
  unfold stratify
  rw [lookup_map_key (fun k => R.filter (fun t => decide (t.1 = k)))]
  simp only [List.mem_mergeSort, List.mem_dedup]

theorem lookup_map_snd {β γ : Type} (F : β → γ) (l : List (ℚ × β)) (k : ℚ) :
    (l.map (fun s => (s.1, F s.2))).lookup k = (l.lookup k).map F := by
  induction l with
  | nil => simp
  | cons a rest ih =>
    obtain ⟨a1, b⟩ := a
    simp only [List.map_cons, List.lookup_cons]
    cases h : (k == a1) <;> simp [ih]

theorem foldl_add_eq (g : pdd → ℚ) (l : List pdd) (a : ℚ) :
    l.foldl (fun acc x => acc + g x) a = a + (l.map g).sum := by
  induction l generalizing a with
  | nil => simp
  | cons x rest ih => simp [ih, add_assoc]

theorem foldl_cond_eq {α : Type} (p : α → Bool) (g : α → ℚ) (l : List α) (a : ℚ) :
    l.foldl (fun acc x => if p x then acc + g x else acc) a
      = a + ((l.filter p).map g).sum := by
  induction l generalizing a with
  | nil => simp
  | cons x rest ih =>
    cases h : p x <;> simp [ih, h, add_assoc]

theorem stratum_norm_eq (h2 : ℚ → ℚ) (s : List pdd) :
    stratum_norm h2 s = (s.map (fun t2 => h2 t2.2)).sum := by
  unfold stratum_norm
  rw [foldl_add_eq (fun t2 => h2 t2.2)]
  simp

theorem stratum_filtered_norm_eq (h2 : ℚ → ℚ) (R2_filter : ℚ → ℚ → Bool) (s : List pdd) :
    stratum_filtered_norm h2 R2_filter s
      = ((s.filter (fun t2 => R2_filter t2.1 t2.2)).map (fun t2 => h2 t2.2)).sum := by
  unfold stratum_filtered_norm
  have h := foldl_cond_eq (fun t2 : pdd => R2_filter t2.1 t2.2) (fun t2 => h2 t2.2) s 0
  simpa using h

theorem map_at_stratum_weights (h2 : ℚ → ℚ) (R2 : List pdd) (k : ℚ) :
    map_at (R2_stratum_weights h2 (stratify R2)) k
      = ((matching R2 k).map (fun t2 => h2 t2.2)).sum := by
  unfold map_at R2_stratum_weights matching
  rw [lookup_map_snd (stratum_norm h2), lookup_stratify]
  by_cases hk : k ∈ R2.map Prod.fst
  · simp only [hk, if_true, Option.map_some', Option.getD_some, stratum_norm_eq]
  · have : R2.filter (fun t2 => decide (t2.1 = k)) = [] := by
      rw [List.filter_eq_nil_iff]
      intro t ht
      simp only [decide_eq_true_eq]
      intro hkey
      exact hk (List.mem_map.mpr ⟨t, ht, hkey⟩)
    simp [hk, this]

theorem map_at_filtered_stratum_weights (h2 : ℚ → ℚ) (R2_filter : ℚ → ℚ → Bool)
    (R2 : List pdd) (k : ℚ) :
    map_at (R2_filtered_stratum_weights h2 R2_filter (stratify R2)) k
      = (((matching R2 k).filter (fun t2 => R2_filter t2.1 t2.2)).map (fun t2 => h2 t2.2)).sum := by
  unfold map_at R2_filtered_stratum_weights matching
  rw [lookup_map_snd (stratum_filtered_norm h2 R2_filter), lookup_stratify]
  by_cases hk : k ∈ R2.map Prod.fst
  · simp only [hk, if_true, Option.map_some', Option.getD_some, stratum_filtered_norm_eq]
  · have : R2.filter (fun t2 => decide (t2.1 = k)) = [] := by
      rw [List.filter_eq_nil_iff]
      intro t ht
      simp only [decide_eq_true_eq]
      intro hkey
      exact hk (List.mem_map.mpr ⟨t, ht, hkey⟩)
    simp [hk, this]

theorem product_nil_left (R2 : List pdd) : ([] : List pdd).product R2 = [] := rfl

theorem product_cons_left (t1 : pdd) (rest R2 : List pdd) :
    (t1 :: rest).product R2 = R2.map (fun t2 => (t1, t2)) ++ rest.product R2 :=
  List.product_cons t1 rest R2

theorem sum_join_pairs (F : pdd × pdd → ℚ) (R1 R2 : List pdd) :
    ((join_pairs R1 R2).map F).sum
      = (R1.map (fun t1 => ((matching R2 t1.1).map (fun t2 => F (t1, t2))).sum)).sum := by
  unfold join_pairs matching
  induction R1 with
  | nil => simp [product_nil_left]
  | cons t1 rest ih =>
    rw [product_cons_left, List.filter_append, List.map_append, List.sum_append, ih]
    simp only [List.map_cons, List.sum_cons, List.filter_map, List.map_map]
    congr 1
    congr 1
    apply congrArg (fun f => List.map (F ∘ Prod.mk t1) (List.filter f R2))
    funext t2
    simp [eq_comm]

theorem materialise_aux (f : Nat → Option pdd) (g : Nat → pdd → Option tdd) (n : Nat) :
    ∀ s : Nat,
      (match allSome f (List.range' s n) with
        | none => none
        | some S => allSome (fun p => g p.1 p.2) (S.enumFrom s))
      = allSome (fun i => match f i with | none => none | some t1 => g i t1)
          (List.range' s n) := by
  induction n with
  | zero => intro s; simp [allSome]
  | succ n ih =>
    intro s
    have h := ih (s + 1)
    simp only [List.range'_succ, allSome]
    cases hf : f s with
    | none => simp
    | some t1 =>
      cases hrest : allSome f (List.range' (s + 1) n) with
      | none =>
        rw [hrest] at h
        simp only at h ⊢
        rw [← h]
        cases g s t1 <;> rfl
      | some S =>
        rw [hrest] at h
        simp only at h ⊢
        rw [← h]
        simp only [List.enumFrom_cons, allSome]

theorem materialise_eq_allSome (R1 : List pdd) (R2_stratified : Tstrat)
    (R1_sample_weights : List ℚ) (S_indices : List Nat) (size : Nat) (rnd : Nat → Nat) :
    materialise R1 R2_stratified R1_sample_weights S_indices size rnd
      = allSome (joined R1 R2_stratified R1_sample_weights S_indices rnd) (List.range size) := by
  unfold materialise minijoin joined
  rw [List.range_eq_range', List.enum]
  exact materialise_aux (drawn_tuple R1 R1_sample_weights S_indices)
    (partner R2_stratified rnd) size 0

theorem materialise_length {R1 : List pdd} {R2_stratified : Tstrat}
    {R1_sample_weights : List ℚ} {S_indices : List Nat} {size : Nat} {rnd : Nat → Nat}
    {sample : List tdd}
    (h : materialise R1 R2_stratified R1_sample_weights S_indices size rnd = some sample) :
    sample.length = size := by
  rw [materialise_eq_allSome] at h
  simpa using allSome_length h

theorem trim_back_ok (pass : tdd → Bool) (m : Int) (hm : 0 ≤ m) :
    ∀ (back : List tdd) (count : Int), count = (back.countP pass : Nat) → m ≤ count →
      ∃ kept, trim_back pass m back count = some (kept, m) ∧ kept <:+ back ∧
        ((kept.countP pass : Nat) : Int) = m := by
  intro back
  induction back with
  | nil =>
    intro count hc hle
    simp only [List.countP_nil, Nat.cast_zero] at hc
    have hm0 : m = 0 := by omega
    subst hm0
    subst hc
    exact ⟨[], by simp [trim_back], List.suffix_refl _, by simp⟩
  | cons t rest ih =>
    intro count hc hle
    by_cases hgt : count > m
    · have hstep : trim_back pass m (t :: rest) count
          = trim_back pass m rest (if pass t then count - 1 else count) := by
        simp [trim_back, hgt]
      have hc' : (if pass t then count - 1 else count) = (rest.countP pass : Nat) := by
        cases hp : pass t
        · simp [List.countP_cons, hp] at hc ⊢; exact hc
        · simp [List.countP_cons, hp] at hc ⊢; omega
      have hle' : m ≤ (if pass t then count - 1 else count) := by
        split <;> omega
      obtain ⟨kept, h1, h2, h3⟩ := ih _ hc' hle'
      exact ⟨kept, by rw [hstep, h1], h2.trans (List.suffix_cons t rest), h3⟩
    · have heq : count = m := by omega
      refine ⟨t :: rest, ?_, List.suffix_refl _, ?_⟩
      · simp [trim_back, hgt, heq]
      · rw [← hc, heq]

theorem trim_ok (pass : tdd → Bool) (m : Int) (sample : List tdd) (hm : 0 ≤ m)
    (hle : m ≤ (sample.countP pass : Nat)) :
    ∃ retained, trim pass m sample = Except.ok (retained, m) ∧ retained <+: sample ∧
      ((retained.countP pass : Nat) : Int) = m := by
  obtain ⟨kept, h1, h2, h3⟩ :=
    trim_back_ok pass m hm sample.reverse (sample.countP pass : Nat) (by simp) hle
  refine ⟨kept.reverse, ?_, ?_, ?_⟩
  · unfold trim
    have hnot : ¬ (((sample.countP pass : Nat) : Int) < m) := by omega
    simp only [hnot, if_false, h1]
  · rw [← List.reverse_suffix]; simpa using h2
  · simpa using h3

theorem trim_assertion (pass : tdd → Bool) (m : Int) (sample : List tdd)
    (hlt : ((sample.countP pass : Nat) : Int) < m) :
    trim pass m sample = Except.error Failure.assertion := by
  unfold trim
  simp [hlt]

theorem S_size_nonneg (m : Int) (filter_selectivity : ℚ) (hm : 0 ≤ m)
    (hsel : 0 < filter_selectivity) : 100 ≤ S_size m filter_selectivity := by
  unfold S_size
  have hq : (0 : ℚ) ≤ (6 / 5 : ℚ) * (m : ℚ) / filter_selectivity := by
    have : (0 : ℚ) ≤ (m : ℚ) := by exact_mod_cast hm
    positivity
  have := Int.ceil_nonneg hq
  omega

theorem accumulate_eq (h1 : ℚ → ℚ → ℚ) (h2 : ℚ → ℚ) (aggregation_f : ℚ → ℚ → ℚ → ℚ)
    (pass : tdd → Bool) (sample : List tdd) :
    accumulate h1 h2 aggregation_f pass sample = passing_sum h1 h2 aggregation_f pass sample := by
  unfold accumulate passing_sum
  have h := foldl_cond_eq pass
    (fun t : tdd => aggregation_f t.1 t.2.1 t.2.2 / (h1 t.1 t.2.1 * h2 t.2.2)) sample 0
  simpa using h

theorem call_cache {h1 : ℚ → ℚ → ℚ} {h2 : ℚ → ℚ} {m : Int} {R1 R2 : List pdd}
    {range_sampler : Int → List ℚ → Option (List ℚ) → List Nat}
    {aggregation_f : ℚ → ℚ → ℚ → ℚ} {R1_filter R2_filter : ℚ → ℚ → Bool}
    {filtered_estimator : Bool} {filter_selectivity : ℚ}
    {recompute_normalisation recompute_cdf : Bool} {rnd : Nat → Nat} {c : Cache}
    {estimate : ℚ} {c1 : Cache}
    (h : generic_sample_join h1 h2 m R1 R2 range_sampler aggregation_f R1_filter R2_filter
      filtered_estimator filter_selectivity recompute_normalisation recompute_cdf rnd c
        = Except.ok (estimate, c1)) :
    c1 = refresh_cache h1 h2 R1 R2 R1_filter R2_filter recompute_normalisation recompute_cdf c := by
  unfold generic_sample_join at h
  simp only at h
  split at h
  · cases h
  · injection h with h
    exact (congrArg Prod.snd h).symm

theorem estimate_of_materialised (h1 : ℚ → ℚ → ℚ) (h2 : ℚ → ℚ) (m : Int) (R1 R2 : List pdd)
    (range_sampler : Int → List ℚ → Option (List ℚ) → List Nat)
    (aggregation_f : ℚ → ℚ → ℚ → ℚ) (R1_filter R2_filter : ℚ → ℚ → Bool)
    (filtered_estimator : Bool) (filter_selectivity : ℚ) (rnd : Nat → Nat) (c : Cache)
    (sample : List tdd) (hm : 0 ≤ m) (hsel : 0 < filter_selectivity)
    (hmat : materialise R1 (stratify R2) c.R1_sample_weights
      (range_sampler (S_size m filter_selectivity) c.R1_sample_weights c.R1_sample_weights_cdf)
      (S_size m filter_selectivity).toNat rnd = some sample) :
    sample_and_estimate h1 h2 m R1 R2 range_sampler aggregation_f R1_filter R2_filter
      filtered_estimator filter_selectivity rnd c
      = match trim (passes R1_filter R2_filter) m sample with
        | Except.error e => Except.error e
        | Except.ok (retained, filtered_sample_size) =>
          Except.ok (rescale filtered_estimator c
            (passing_sum h1 h2 aggregation_f (passes R1_filter R2_filter) retained)
            filtered_sample_size retained.length) := by
  have hS := S_size_nonneg m filter_selectivity hm hsel
  have hS' : ¬ (S_size m filter_selectivity < 0) := by omega
  unfold sample_and_estimate
  simp only [ne_of_gt hsel, if_false, hS', hmat]
  cases htrim : trim (passes R1_filter R2_filter) m sample with
  | error e => rfl
  | ok r =>
    obtain ⟨retained, count⟩ := r
    simp only [accumulate_eq]

theorem call_of_materialised (h1 : ℚ → ℚ → ℚ) (h2 : ℚ → ℚ) (m : Int) (R1 R2 : List pdd)
    (range_sampler : Int → List ℚ → Option (List ℚ) → List Nat)
    (aggregation_f : ℚ → ℚ → ℚ → ℚ) (R1_filter R2_filter : ℚ → ℚ → Bool)
    (filtered_estimator : Bool) (filter_selectivity : ℚ)
    (recompute_normalisation recompute_cdf : Bool) (rnd : Nat → Nat) (c : Cache)
    (sample : List tdd) (hm : 0 ≤ m) (hsel : 0 < filter_selectivity)
    (hmat : materialised_sample h1 h2 m R1 R2 range_sampler R1_filter R2_filter
      filter_selectivity recompute_normalisation recompute_cdf rnd c = some sample) :
    generic_sample_join h1 h2 m R1 R2 range_sampler aggregation_f R1_filter R2_filter
      filtered_estimator filter_selectivity recompute_normalisation recompute_cdf rnd c
      = match trim (passes R1_filter R2_filter) m sample with
        | Except.error e => Except.error e
        | Except.ok (retained, filtered_sample_size) =>
          Except.ok (rescale filtered_estimator
            (refresh_cache h1 h2 R1 R2 R1_filter R2_filter recompute_normalisation
              recompute_cdf c)
            (passing_sum h1 h2 aggregation_f (passes R1_filter R2_filter) retained)
            filtered_sample_size retained.length,
            refresh_cache h1 h2 R1 R2 R1_filter R2_filter recompute_normalisation
              recompute_cdf c) := by
  unfold materialised_sample at hmat
  simp only at hmat
  unfold generic_sample_join
  simp only
  rw [estimate_of_materialised h1 h2 m R1 R2 range_sampler aggregation_f R1_filter R2_filter
    filtered_estimator filter_selectivity rnd _ sample hm hsel hmat]
  cases htrim : trim (passes R1_filter R2_filter) m sample with
  | error e => rfl
  | ok r => rfl

theorem example_refresh (recompute_cdf : Bool) (c : Cache) :
    refresh_cache h1_unif h2_unif example_R1 example_R2 no_filter no_filter true recompute_cdf c
      = example_cache recompute_cdf := by
  unfold refresh_cache recompute example_cache
  simp only [map_at_stratum_weights, map_at_filtered_stratum_weights]
  cases recompute_cdf <;>
    simp [example_R1, example_R2, matching, h1_unif, h2_unif, no_filter, get_cdf,
      List.range_succ] <;> norm_num

theorem example_joined (rnd : Nat → Nat) (idx : List Nat) (hrange : ∀ j ∈ idx, j < 3)
    (i : Nat) (hi : i < idx.length) :
    joined example_R1 (stratify example_R2) [1, 1, 1] idx rnd i
      = some (example_tuple (idx.getD i 0)) := by
  have hj : idx[i] < 3 := hrange _ (List.getElem_mem hi)
  have hget : idx[i]? = some idx[i] := List.getElem?_eq_getElem hi
  have hD : idx.getD i 0 = idx[i] := by simp [List.getD, hget]
  rw [hD]
  unfold joined drawn_tuple
  rw [hget]
  generalize idx[i] = j at hj
  interval_cases j <;>
    simp [example_R1, partner, lookup_stratify, example_R2, example_tuple, Nat.mod_one]

theorem example_materialised (rnd : Nat → Nat) (idx : List Nat) (size : Nat)
    (hlen : idx.length = size) (hrange : ∀ j ∈ idx, j < 3) :
    materialise example_R1 (stratify example_R2) [1, 1, 1] idx size rnd
      = some (idx.map example_tuple) := by
  rw [materialise_eq_allSome,
    allSome_of_forall _ (fun i => example_tuple (idx.getD i 0))]
  · congr 1
    apply List.ext_getElem
    · simp [hlen]
    · intro i h1 h2
      simp only [List.length_map] at h2
      simp [List.getD, List.getElem?_eq_getElem h2]
  · intro i hi
    rw [List.mem_range] at hi
    exact example_joined rnd idx hrange i (by omega)

theorem passes_no_filter (t : tdd) : passes no_filter no_filter t = true := rfl

theorem trim_no_filter (m : Int) (sample : List tdd) (hm : 0 ≤ m)
    (hle : m ≤ (sample.length : Int)) :
    trim (passes no_filter no_filter) m sample = Except.ok (sample.take m.toNat, m) := by
  have hall : ∀ l : List tdd, l.countP (passes no_filter no_filter) = l.length := by
    intro l
    rw [List.countP_eq_length]
    intro t _
    exact passes_no_filter t
  obtain ⟨retained, h1, h2, h3⟩ :=
    trim_ok (passes no_filter no_filter) m sample hm (by rw [hall]; exact hle)
  rw [hall] at h3
  rw [h1, List.prefix_iff_eq_take.mp h2]
  have : retained.length = m.toNat := by omega
  rw [this]

theorem example_passing_sum (l : List Nat) (hrange : ∀ j ∈ l, j < 3) :
    passing_sum h1_unif h2_unif aggregate_f (passes no_filter no_filter) (l.map example_tuple)
      = 10 * (l.length : ℚ) + 10 * (l.count 2 : ℚ) := by
  unfold passing_sum
  induction l with
  | nil => simp
  | cons j rest ih =>
    have hj : j < 3 := hrange j (List.mem_cons_self _ _)
    have hrest : ∀ k ∈ rest, k < 3 := fun k hk => hrange k (List.mem_cons_of_mem _ hk)
    have ih' := ih hrest
    simp only [List.map_cons, List.filter_cons, passes_no_filter, if_true, List.sum_cons,
      List.length_cons, List.count_cons, Nat.cast_add, Nat.cast_one] at ih' ⊢
    rw [ih']
    interval_cases j <;> simp [example_tuple, h1_unif, h2_unif, aggregate_f] <;> ring

theorem example_estimate (range_sampler : Int → List ℚ → Option (List ℚ) → List Nat)
    (filtered_estimator : Bool) (filter_selectivity : ℚ)
    (hsel : 0 < filter_selectivity) (rnd : Nat → Nat) (c : Cache)
    (hw : c.R1_sample_weights = [1, 1, 1]) (hn : c.normalisation = 3)
    (hfn : c.filtered_normalisation = 3)
    (hlen : (range_sampler (S_size 3 filter_selectivity) [1, 1, 1]
      c.R1_sample_weights_cdf).length = (S_size 3 filter_selectivity).toNat)
    (hrange : ∀ j ∈ range_sampler (S_size 3 filter_selectivity) [1, 1, 1]
      c.R1_sample_weights_cdf, j < 3) :
    sample_and_estimate h1_unif h2_unif 3 example_R1 example_R2 range_sampler aggregate_f
      no_filter no_filter filtered_estimator filter_selectivity rnd c
      = Except.ok (30 + 10 * ((((range_sampler (S_size 3 filter_selectivity) [1, 1, 1]
          c.R1_sample_weights_cdf).take 3).count 2 : Nat) : ℚ)) := by
  have hS := S_size_nonneg 3 filter_selectivity (by norm_num) hsel
  generalize hidx : range_sampler (S_size 3 filter_selectivity) [1, 1, 1]
      c.R1_sample_weights_cdf = idx at hlen hrange
  have hmat : materialise example_R1 (stratify example_R2) c.R1_sample_weights
      (range_sampler (S_size 3 filter_selectivity) c.R1_sample_weights c.R1_sample_weights_cdf)
      (S_size 3 filter_selectivity).toNat rnd = some (idx.map example_tuple) := by
    rw [hw, hidx]
    exact example_materialised rnd idx _ hlen hrange
  rw [estimate_of_materialised _ _ _ _ _ _ _ _ _ _ _ _ _ _ (by norm_num) hsel hmat,
    trim_no_filter 3 _ (by norm_num) (by simp [hlen]; omega)]
  have h3 : (3 : Int).toNat = 3 := rfl
  have hlen3 : (idx.take 3).length = 3 := by
    rw [List.length_take]; omega
  simp only [h3, ← List.map_take]
  rw [example_passing_sum _ (fun j hj => hrange j (List.mem_of_mem_take hj))]
  simp only [hlen3, List.length_map]
  unfold rescale
  rw [hn, hfn]
  cases filtered_estimator <;> simp <;> ring

theorem example_call (range_sampler : Int → List ℚ → Option (List ℚ) → List Nat)
    (filtered_estimator recompute_cdf : Bool) (filter_selectivity : ℚ)
    (hsel : 0 < filter_selectivity) (rnd : Nat → Nat) (c : Cache)
    (hlen : (range_sampler (S_size 3 filter_selectivity) [1, 1, 1]
      (if recompute_cdf then some [1, 2, 3] else none)).length
        = (S_size 3 filter_selectivity).toNat)
    (hrange : ∀ j ∈ range_sampler (S_size 3 filter_selectivity) [1, 1, 1]
      (if recompute_cdf then some [1, 2, 3] else none), j < 3) :
    generic_sample_join h1_unif h2_unif 3 example_R1 example_R2 range_sampler aggregate_f
      no_filter no_filter filtered_estimator filter_selectivity true recompute_cdf rnd c
      = Except.ok (30 + 10 * ((((range_sampler (S_size 3 filter_selectivity) [1, 1, 1]
          (if recompute_cdf then some [1, 2, 3] else none)).take 3).count 2 : Nat) : ℚ),
          example_cache recompute_cdf) := by
  unfold generic_sample_join
  simp only [example_refresh]
  rw [example_estimate range_sampler filtered_estimator filter_selectivity hsel rnd
    (example_cache recompute_cdf) rfl rfl rfl hlen hrange]
  rfl

theorem example_call_cached (range_sampler : Int → List ℚ → Option (List ℚ) → List Nat)
    (filtered_estimator cdf_cached : Bool) (filter_selectivity : ℚ)
    (hsel : 0 < filter_selectivity) (rnd : Nat → Nat)
    (hlen : (range_sampler (S_size 3 filter_selectivity) [1, 1, 1]
      (if cdf_cached then some [1, 2, 3] else none)).length
        = (S_size 3 filter_selectivity).toNat)
    (hrange : ∀ j ∈ range_sampler (S_size 3 filter_selectivity) [1, 1, 1]
      (if cdf_cached then some [1, 2, 3] else none), j < 3) :
    generic_sample_join h1_unif h2_unif 3 example_R1 example_R2 range_sampler aggregate_f
      no_filter no_filter filtered_estimator filter_selectivity false false rnd
      (example_cache cdf_cached)
      = Except.ok (30 + 10 * ((((range_sampler (S_size 3 filter_selectivity) [1, 1, 1]
          (if cdf_cached then some [1, 2, 3] else none)).take 3).count 2 : Nat) : ℚ),
          example_cache cdf_cached) := by
  unfold generic_sample_join
  have hr : refresh_cache h1_unif h2_unif example_R1 example_R2 no_filter no_filter false false
      (example_cache cdf_cached) = example_cache cdf_cached := by
    simp [refresh_cache]
  simp only [hr]
  rw [example_estimate range_sampler filtered_estimator filter_selectivity hsel rnd
    (example_cache cdf_cached) rfl rfl rfl hlen hrange]
  rfl

theorem S_size_example : S_size 3 1 = 104 := by
  unfold S_size
  have : ⌈(6 / 5 : ℚ) * ((3 : Int) : ℚ) / 1⌉ = 4 := by
    rw [Int.ceil_eq_iff]; norm_num
  rw [this]; rfl

theorem multimap_insert_perm {D : Type} (e : ℚ × D) (l : List (ℚ × D)) :
    (multimap_insert e l).Perm (e :: l) := by
  induction l with
  | nil => exact List.Perm.refl _
  | cons x rest ih =>
    unfold multimap_insert
    split
    · exact List.Perm.refl _
    · exact (List.Perm.cons x ih).trans (List.Perm.swap e x rest)

theorem multimap_insert_length {D : Type} (e : ℚ × D) (l : List (ℚ × D)) :
    (multimap_insert e l).length = l.length + 1 := by
  simpa using (multimap_insert_perm e l).length_eq

theorem multimap_insert_sorted {D : Type} (e : ℚ × D) (l : List (ℚ × D))
    (h : List.Sorted (fun a b : ℚ => a ≤ b) (l.map Prod.fst)) :
    List.Sorted (fun a b : ℚ => a ≤ b) ((multimap_insert e l).map Prod.fst) := by
  induction l with
  | nil => simp [multimap_insert]
  | cons x rest ih =>
    simp only [List.map_cons, List.sorted_cons] at h
    unfold multimap_insert
    split
    · rename_i hlt
      simp only [List.map_cons, List.sorted_cons]
      refine ⟨?_, h.1, h.2⟩
      intro b hb
      rcases List.mem_cons.mp hb with rfl | hb
      · exact le_of_lt hlt
      · exact le_trans (le_of_lt hlt) (h.1 b hb)
    · rename_i hge
      simp only [List.map_cons, List.sorted_cons]
      refine ⟨?_, ih h.2⟩
      intro b hb
      have hb' : b ∈ (e :: rest).map Prod.fst :=
        ((multimap_insert_perm e rest).map Prod.fst).subset hb
      simp only [List.map_cons, List.mem_cons] at hb'
      rcases hb' with rfl | hb'
      · exact not_lt.mp hge
      · exact h.1 b hb'

theorem top_unique (L R E : List ℚ) (m : Nat) (hperm : L.Perm (R ++ E))
    (hle : ∀ x ∈ E, ∀ y ∈ R, x ≤ y) (hlen : R.length = m) :
    (largest_keys m L).Perm R := by
  unfold largest_keys
  have hs1 : List.Sorted (fun a b : ℚ => a ≥ b) (L.insertionSort (fun a b => a ≥ b)) :=
    List.sorted_insertionSort _ L
  have hsR : List.Sorted (fun a b : ℚ => a ≥ b) (R.insertionSort (fun a b => a ≥ b)) :=
    List.sorted_insertionSort _ R
  have hsE : List.Sorted (fun a b : ℚ => a ≥ b) (E.insertionSort (fun a b => a ≥ b)) :=
    List.sorted_insertionSort _ E
  have hs2 : List.Sorted (fun a b : ℚ => a ≥ b)
      (R.insertionSort (fun a b => a ≥ b) ++ E.insertionSort (fun a b => a ≥ b)) := by
    unfold List.Sorted
    rw [List.pairwise_append]
    refine ⟨hsR, hsE, ?_⟩
    intro a ha b hb
    exact hle b ((List.mem_insertionSort _).mp hb) a ((List.mem_insertionSort _).mp ha)
  have hp : (L.insertionSort (fun a b => a ≥ b)).Perm
      (R.insertionSort (fun a b => a ≥ b) ++ E.insertionSort (fun a b => a ≥ b)) :=
    ((List.perm_insertionSort _ L).trans hperm).trans
      (List.Perm.append (List.perm_insertionSort _ R).symm (List.perm_insertionSort _ E).symm)
  rw [List.eq_of_perm_of_sorted hp hs1 hs2,
    List.take_left' (by rw [List.length_insertionSort, hlen])]
  exact List.perm_insertionSort _ R

theorem allSome_forall₂ {α β : Type} (f : α → Option β) (l : List α) (r : List β)
    (h : allSome f l = some r) : List.Forall₂ (fun b a => f a = some b) r l := by
  induction l generalizing r with
  | nil =>
    simp only [allSome, Option.some.injEq] at h
    subst h
    exact List.Forall₂.nil
  | cons a rest ih =>
    simp only [allSome] at h
    cases hfa : f a with
    | none => simp [hfa] at h
    | some b =>
      cases hrest : allSome f rest with
      | none => simp [hfa, hrest] at h
      | some bs =>
        simp only [hfa, hrest, Option.some.injEq] at h
        subst h
        exact List.Forall₂.cons hfa (ih bs hrest)

theorem allSome_exists {α β : Type} (f : α → Option β) (l : List α)
    (h : ∀ a ∈ l, ∃ b, f a = some b) : ∃ r, allSome f l = some r := by
  induction l with
  | nil => exact ⟨[], rfl⟩
  | cons a rest ih =>
    obtain ⟨b, hb⟩ := h a (List.mem_cons_self _ _)
    obtain ⟨bs, hbs⟩ := ih (fun x hx => h x (List.mem_cons_of_mem _ hx))
    exact ⟨b :: bs, by simp [allSome, hb, hbs]⟩

theorem draw_keys_some (pow : ℚ → ℚ → ℚ) (rnd : Nat → ℚ) (w : List Int) (count : Nat)
    (hw : count ≤ w.length) :
    ∃ keys, draw_keys pow rnd w count = some keys ∧ keys.length = count := by
  unfold draw_keys
  obtain ⟨keys, hkeys⟩ := allSome_exists
    (fun i => match (w[i]? : Option Int) with
      | none => none
      | some wi => some (pow (rnd i) (1 / (wi : ℚ)))) (List.range count)
    (by
      intro i hi
      rw [List.mem_range] at hi
      have hlt : i < w.length := by omega
      refine ⟨pow (rnd i) (1 / (w[i] : ℚ)), ?_⟩
      simp only [List.getElem?_eq_getElem hlt])
  exact ⟨keys, hkeys, by simpa using allSome_length hkeys⟩

theorem tag_order_le {D : Type} {a b : Tagged D} (h : tag_order a b) : a.1.1 ≤ b.1.1 := by
  rcases h with h | h
  · exact le_of_lt h
  · exact le_of_eq h.1

theorem tagged_insert_fst {D : Type} (t : Tagged D) (tagged : List (Tagged D)) :
    (tagged_insert t tagged).map Prod.fst = multimap_insert t.1 (tagged.map Prod.fst) := by
  induction tagged with
  | nil => rfl
  | cons x rest ih =>
    simp only [tagged_insert, List.map_cons, multimap_insert]
    split
    · rfl
    · simp only [List.map_cons, ih]

theorem tagged_insert_perm {D : Type} (t : Tagged D) (tagged : List (Tagged D)) :
    (tagged_insert t tagged).Perm (t :: tagged) := by
  induction tagged with
  | nil => exact List.Perm.refl _
  | cons x rest ih =>
    unfold tagged_insert
    split
    · exact List.Perm.refl _
    · exact (List.Perm.cons x ih).trans (List.Perm.swap t x rest)

theorem tagged_insert_order {D : Type} (t : Tagged D) (tagged : List (Tagged D))
    (horder : List.Pairwise tag_order tagged) (hlast : ∀ x ∈ tagged, x.2 < t.2) :
    List.Pairwise tag_order (tagged_insert t tagged) := by
  induction tagged with
  | nil => simp [tagged_insert]
  | cons x rest ih =>
    rw [List.pairwise_cons] at horder
    unfold tagged_insert
    split
    · rename_i hlt
      rw [List.pairwise_cons]
      refine ⟨?_, List.pairwise_cons.mpr horder⟩
      intro p hp
      rcases List.mem_cons.mp hp with rfl | hp
      · exact Or.inl hlt
      · exact Or.inl (lt_of_lt_of_le hlt (tag_order_le (horder.1 p hp)))
    · rename_i hge
      rw [List.pairwise_cons]
      refine ⟨?_, ih horder.2 (fun y hy => hlast y (List.mem_cons_of_mem _ hy))⟩
      intro p hp
      rcases List.mem_cons.mp ((tagged_insert_perm t rest).subset hp) with rfl | hp
      · rcases lt_or_eq_of_le (not_lt.mp hge) with h | h
        · exact Or.inl h
        · exact Or.inr ⟨h, hlast x (List.mem_cons_self _ _)⟩
      · exact horder.1 p hp

theorem fold_tagged_insert {D : Type} (ts : List (Tagged D)) :
    ∀ init : List (Tagged D), List.Pairwise tag_order init →
      List.Pairwise (fun a b : Tagged D => a.2 < b.2) ts →
      (∀ x ∈ init, ∀ t ∈ ts, x.2 < t.2) →
      (ts.foldl (fun r t => tagged_insert t r) init).Perm (init ++ ts) ∧
      List.Pairwise tag_order (ts.foldl (fun r t => tagged_insert t r) init) ∧
      (ts.foldl (fun r t => tagged_insert t r) init).map Prod.fst
        = (ts.map Prod.fst).foldl (fun r e => multimap_insert e r) (init.map Prod.fst) := by
  induction ts with
  | nil =>
    intro init horder _ _
    exact ⟨by simp, by simpa using horder, by simp⟩
  | cons t rest ih =>
    intro init horder hinc hlast
    rw [List.pairwise_cons] at hinc
    have hperm := tagged_insert_perm t init
    obtain ⟨h1, h2, h3⟩ := ih (tagged_insert t init)
      (tagged_insert_order t init horder (fun x hx => hlast x hx t (List.mem_cons_self _ _)))
      hinc.2
      (by
        intro x hx u hu
        rcases List.mem_cons.mp (hperm.subset hx) with rfl | hx
        · exact hinc.1 u hu
        · exact hlast x hx u (List.mem_cons_of_mem _ hu))
    refine ⟨?_, h2, ?_⟩
    · simp only [List.foldl_cons]
      refine h1.trans ?_
      refine (List.Perm.append_right _ hperm).trans ?_
      simp only [List.cons_append]
      exact List.perm_middle.symm
    · simp only [List.foldl_cons, List.map_cons, h3, tagged_insert_fst]

theorem entries_keys {D : Type} (keys : List ℚ) (data : List D) (n : Nat) :
    ∀ (s : Nat) (entries : List (ℚ × D)),
      List.Forall₂ (fun e i => keys[i]? = some e.1 ∧ data[i]? = some e.2) entries
        (List.range' s n) →
      entries.map Prod.fst = (keys.drop s).take n := by
  induction n with
  | zero =>
    intro s entries h
    simp only [List.range'_zero, List.forall₂_nil_right_iff] at h
    subst h
    simp
  | succ n ih =>
    intro s entries h
    rw [List.range'_succ] at h
    cases h with
    | cons he hrest =>
      rename_i e es
      obtain ⟨hlt, hk⟩ := List.getElem?_eq_some.mp he.1
      rw [List.drop_eq_getElem_cons hlt, List.take_succ_cons, List.map_cons, hk,
        ih (s + 1) es hrest]

theorem seed_reservoir_inv {D : Type} (keys : List ℚ) (data : List D) (m : Nat)
    (hk : m ≤ keys.length) (hd : m ≤ data.length) :
    ∃ result, seed_reservoir keys data m = some result ∧
      reservoir_inv keys data m m result := by
  obtain ⟨entries, hentries⟩ := allSome_exists
    (fun i => match keys[i]?, data[i]? with
      | some k, some d => some (k, d)
      | _, _ => none) (List.range m)
    (by
      intro i hi
      rw [List.mem_range] at hi
      have h1 : i < keys.length := by omega
      have h2 : i < data.length := by omega
      refine ⟨(keys[i], data[i]), ?_⟩
      simp only [List.getElem?_eq_getElem h1, List.getElem?_eq_getElem h2])
  have hlen : entries.length = m := by simpa using allSome_length hentries
  have hP : List.Forall₂ (fun e i => keys[i]? = some e.1 ∧ data[i]? = some e.2) entries
      (List.range m) := by
    refine List.Forall₂.imp ?_ (allSome_forall₂ _ _ _ hentries)
    intro e i h
    cases h1 : keys[i]? with
    | none => simp [h1] at h
    | some k =>
      cases h2 : data[i]? with
      | none => simp [h1, h2] at h
      | some d =>
        simp only [h1, h2, Option.some.injEq] at h
        subst h
        exact ⟨rfl, rfl⟩
  have hfst : (entries.zip (List.range m)).map Prod.fst = entries :=
    List.map_fst_zip _ _ (by simp [hlen])
  have hsnd : (entries.zip (List.range m)).map Prod.snd = List.range m :=
    List.map_snd_zip _ _ (by simp [hlen])
  have hinc : List.Pairwise (fun a b : Tagged D => a.2 < b.2) (entries.zip (List.range m)) := by
    have := List.pairwise_lt_range m
    rw [← hsnd, List.pairwise_map] at this
    exact this
  obtain ⟨hperm, horder, hmap⟩ := fold_tagged_insert (entries.zip (List.range m)) []
    List.Pairwise.nil hinc (by simp)
  simp only [List.nil_append, List.map_nil, hfst] at hperm hmap
  have hkeys := entries_keys keys data m 0 entries (by rw [← List.range_eq_range']; exact hP)
  simp only [List.drop_zero] at hkeys
  refine ⟨entries.foldl (fun r e => multimap_insert e r) [], ?_,
    (entries.zip (List.range m)).foldl (fun r t => tagged_insert t r) [], ?_, ?_, horder, ?_⟩
  · unfold seed_reservoir
    rw [hentries]
  · refine ⟨hmap.symm, ?_, ?_⟩
    · rw [(hperm.map Prod.snd).nodup_iff, hsnd]
      exact List.nodup_range m
    · intro t ht
      have hz : (t.1, t.2) ∈ entries.zip (List.range m) := hperm.subset ht
      have hR := (List.forall₂_iff_zip.mp hP).2 hz
      have hm : t.2 ∈ List.range m := (List.of_mem_zip hz).2
      exact ⟨List.mem_range.mp hm, hR.1, hR.2⟩
  · rw [hperm.length_eq, List.length_zip, hlen]
    simp
  · refine ⟨[], ?_, by simp⟩
    rw [List.append_nil, ← hmap]
    have h1 := (hperm.map Prod.fst).map Prod.fst
    rw [hfst, hkeys] at h1
    exact h1.symm

theorem reservoir_inv_length {D : Type} {keys : List ℚ} {data : List D} {m j : Nat}
    {result : List (ℚ × D)} (h : reservoir_inv keys data m j result) : result.length = m := by
  obtain ⟨tagged, ⟨hres, _, _⟩, hlen, _⟩ := h
  rw [hres, List.length_map, hlen]

theorem reservoir_step_inv {D : Type} (keys : List ℚ) (data : List D) (m j : Nat)
    (result : List (ℚ × D)) (hm : 0 < m) (hk : j < keys.length) (hd : j < data.length)
    (hinv : reservoir_inv keys data m j result) :
    ∃ result1, reservoir_step keys data result j = some result1 ∧
      reservoir_inv keys data m (j + 1) result1 := by
  obtain ⟨tagged, ⟨hres, hnodup, hentry⟩, hlen, horder, E, hperm, hE⟩ := hinv
  have htake : keys.take (j + 1) = keys.take j ++ [keys[j]] := by
    rw [List.take_succ, List.getElem?_eq_getElem hk]
    rfl
  cases tagged with
  | nil => simp at hlen; omega
  | cons least rest =>
    subst hres
    rw [List.pairwise_cons] at horder
    simp only [List.map_cons, List.nodup_cons] at hnodup
    have hsorted : ∀ y ∈ rest.map Prod.fst, least.1.1 ≤ y.1 := by
      intro y hy
      obtain ⟨p, hp, rfl⟩ := List.mem_map.mp hy
      exact tag_order_le (horder.1 p hp)
    by_cases hgt : keys[j] > least.1.1
    · have hq := (multimap_insert_perm (keys[j], data[j]) (rest.map Prod.fst)).map Prod.fst
      simp only [List.map_cons] at hq
      have hp := tagged_insert_perm ((keys[j], data[j]), j) rest
      refine ⟨multimap_insert (keys[j], data[j]) (rest.map Prod.fst), ?_,
        tagged_insert ((keys[j], data[j]), j) rest, ⟨?_, ?_, ?_⟩, ?_, ?_, least.1.1 :: E, ?_, ?_⟩
      · simp [reservoir_step, List.getElem?_eq_getElem hk, List.getElem?_eq_getElem hd, hgt]
      · rw [tagged_insert_fst]
      · rw [(hp.map Prod.snd).nodup_iff]
        simp only [List.map_cons, List.nodup_cons]
        refine ⟨?_, hnodup.2⟩
        intro hmem
        obtain ⟨p, hp1, hp2⟩ := List.mem_map.mp hmem
        have := (hentry p (List.mem_cons_of_mem _ hp1)).1
        omega
      · intro t ht
        rcases List.mem_cons.mp (hp.subset ht) with rfl | ht
        · exact ⟨by omega, List.getElem?_eq_getElem hk, List.getElem?_eq_getElem hd⟩
        · obtain ⟨h1, h2, h3⟩ := hentry t (List.mem_cons_of_mem _ ht)
          exact ⟨by omega, h2, h3⟩
      · rw [hp.length_eq]
        simpa using hlen
      · refine tagged_insert_order _ rest horder.2 ?_
        intro x hx
        exact (hentry x (List.mem_cons_of_mem _ hx)).1
      · rw [htake]
        refine (List.Perm.append_right _ hperm).trans ?_
        refine List.Perm.trans ?_ (List.Perm.append_right _ hq.symm)
        rw [List.perm_iff_count]
        intro a
        simp only [List.map_cons, List.count_cons, List.count_append, List.count_nil]
        omega
      · intro x hx y hy
        have hy1 : y = keys[j] ∨ y ∈ (rest.map Prod.fst).map Prod.fst := by
          have := hq.subset hy
          simpa using this
        have hrest : ∀ z ∈ (rest.map Prod.fst).map Prod.fst, least.1.1 ≤ z := by
          intro z hz
          obtain ⟨p, hp1, rfl⟩ := List.mem_map.mp hz
          exact hsorted p hp1
        rcases List.mem_cons.mp hx with rfl | hx
        · rcases hy1 with rfl | hy1
          · exact le_of_lt hgt
          · exact hrest y hy1
        · have hxl : x ≤ least.1.1 := hE x hx least.1.1 (by simp)
          rcases hy1 with rfl | hy1
          · exact le_trans hxl (le_of_lt hgt)
          · exact le_trans hxl (hrest y hy1)
    · refine ⟨(least :: rest).map Prod.fst, ?_, least :: rest, ⟨rfl, ?_, ?_⟩, hlen,
        List.pairwise_cons.mpr horder, keys[j] :: E, ?_, ?_⟩
      · simp [reservoir_step, List.getElem?_eq_getElem hk, hgt]
      · simpa using hnodup
      · intro t ht
        obtain ⟨h1, h2, h3⟩ := hentry t ht
        exact ⟨by omega, h2, h3⟩
      · rw [htake]
        refine (List.Perm.append_right _ hperm).trans ?_
        rw [List.append_assoc]
        refine List.Perm.append_left _ ?_
        exact (List.perm_append_singleton _ _)
      · intro x hx y hy
        rcases List.mem_cons.mp hx with rfl | hx
        · have hle : keys[j] ≤ least.1.1 := not_lt.mp hgt
          simp only [List.map_cons, List.mem_cons] at hy
          rcases hy with rfl | hy
          · exact hle
          · obtain ⟨p, hp1, rfl⟩ := List.mem_map.mp hy
            exact le_trans hle (hsorted p hp1)
        · exact hE x hx y hy

theorem reservoir_loop_inv {D : Type} (keys : List ℚ) (data : List D) (m : Nat) (hm : 0 < m) :
    ∀ (count j : Nat) (result : List (ℚ × D)), j + count ≤ keys.length →
      j + count ≤ data.length → reservoir_inv keys data m j result →
      ∃ result1, reservoir_loop keys data (List.range' j count) result = some result1 ∧
        reservoir_inv keys data m (j + count) result1 := by
  intro count
  induction count with
  | zero =>
    intro j result _ _ hinv
    exact ⟨result, by simp [reservoir_loop], by simpa using hinv⟩
  | succ count ih =>
    intro j result hk hd hinv
    obtain ⟨result1, hstep, hinv1⟩ :=
      reservoir_step_inv keys data m j result hm (by omega) (by omega) hinv
    obtain ⟨result2, hloop, hinv2⟩ := ih (j + 1) result1 (by omega) (by omega) hinv1
    refine ⟨result2, ?_, ?_⟩
    · rw [List.range'_succ]
      simp only [reservoir_loop, hstep, hloop]
    · have : j + (count + 1) = j + 1 + count := by omega
      rw [this]
      exact hinv2

theorem algorithm_A_inv {D : Type} (pow : ℚ → ℚ → ℚ) (rnd : Nat → ℚ) (data : List D)
    (w : List Int) (n m : Nat) (hmn : m ≤ n) (hm : 0 < m) (hd : n ≤ data.length)
    (hw : n ≤ w.length) :
    ∃ keys result, draw_keys pow rnd w n = some keys ∧ keys.length = n ∧
      weighted_wor_reservoir_sample pow rnd data w n m = some result ∧
      reservoir_inv keys data m n result := by
  obtain ⟨keys, hkeys, hlen⟩ := draw_keys_some pow rnd w n hw
  obtain ⟨seed, hseed, hinv⟩ := seed_reservoir_inv keys data m (by omega) (by omega)
  obtain ⟨result, hloop, hinv1⟩ :=
    reservoir_loop_inv keys data m hm (n - m) m seed (by omega) (by omega) hinv
  refine ⟨keys, result, hkeys, hlen, ?_, ?_⟩
  · unfold weighted_wor_reservoir_sample
    simp only [hkeys, hseed, hloop]
  · have : m + (n - m) = n := by omega
    rw [this] at hinv1
    exact hinv1

theorem foldl_insert_length {D : Type} (entries : List (ℚ × D)) :
    ∀ init : List (ℚ × D),
      (entries.foldl (fun r e => multimap_insert e r) init).length
        = init.length + entries.length := by
  induction entries with
  | nil => intro init; simp
  | cons e rest ih =>
    intro init
    simp only [List.foldl_cons, ih, multimap_insert_length, List.length_cons]
    omega

theorem seed_reservoir_length {D : Type} (keys : List ℚ) (data : List D) (m : Nat)
    (result : List (ℚ × D)) (h : seed_reservoir keys data m = some result) :
    result.length = m := by
  unfold seed_reservoir at h
  split at h
  · cases h
  · rename_i entries hentries
    injection h with h
    subst h
    rw [foldl_insert_length]
    simpa using allSome_length hentries

theorem skip_items_some (w : List Int) (n : Nat) (hw : n ≤ w.length) :
    ∀ (left : Nat) (xw : ℚ) (i : Nat), ∃ r, skip_items w n left xw i = some r := by
  intro left
  induction left with
  | zero => intro xw i; exact ⟨_, rfl⟩
  | succ left ih =>
    intro xw i
    unfold skip_items
    split
    · rename_i hcond
      have hlt : i < w.length := by omega
      simp only [List.getElem?_eq_getElem hlt]
      exact ih _ _
    · exact ⟨_, rfl⟩

theorem jump_loop_size {D : Type} (pow : ℚ → ℚ → ℚ) (log : ℚ → ℚ) (rnd : Nat → ℚ)
    (data : List D) (w : List Int) (n m : Nat) (hm : 0 < m) (hd : n ≤ data.length)
    (hw : n ≤ w.length) :
    ∀ (fuel i : Nat) (result : List (ℚ × D)) (drawn : Nat), result.length = m →
      jump_loop pow log rnd data w n fuel i result drawn = Run.unfinished ∨
      ∃ final, jump_loop pow log rnd data w n fuel i result drawn = Run.done final ∧
        final.length = m := by
  intro fuel
  induction fuel with
  | zero => intro i result drawn _; exact Or.inl rfl
  | succ fuel ih =>
    intro i result drawn hlen
    cases result with
    | nil => simp at hlen; omega
    | cons least rest =>
      obtain ⟨⟨xw1, i1⟩, hskip⟩ :=
        skip_items_some w n hw (n - i) (log (rnd drawn) / log least.1) i
      simp only [jump_loop, hskip]
      by_cases hge : i1 ≥ n
      · simp only [hge, if_true]
        exact Or.inr ⟨_, rfl, hlen⟩
      · have h1 : i1 < w.length := by omega
        have h2 : i1 < data.length := by omega
        simp only [hge, if_false, List.getElem?_eq_getElem h1, List.getElem?_eq_getElem h2]
        apply ih
        rw [multimap_insert_length]
        simpa using hlen

theorem jump_loop_done_size {D : Type} (pow : ℚ → ℚ → ℚ) (log : ℚ → ℚ) (rnd : Nat → ℚ)
    (data : List D) (w : List Int) (n : Nat) :
    ∀ (fuel i : Nat) (result : List (ℚ × D)) (drawn : Nat) (final : List (ℚ × D)),
      jump_loop pow log rnd data w n fuel i result drawn = Run.done final →
      final.length = result.length := by
  intro fuel
  induction fuel with
  | zero => intro i result drawn final h; simp [jump_loop] at h
  | succ fuel ih =>
    intro i result drawn final h
    cases result with
    | nil => simp [jump_loop] at h
    | cons least rest =>
      simp only [jump_loop] at h
      split at h
      · cases h
      · split at h
        · injection h with h
          rw [h]
        · split at h
          · have := ih _ _ _ _ h
            rw [this, multimap_insert_length]
            simp
          · cases h

theorem tie_run :
    weighted_wor_reservoir_sample example_pow tie_rnd ['a', 'b', 'c'] [1, 1, 1] 3 2
      = some [(0, 'b'), (1, 'c')] := by
  simp [weighted_wor_reservoir_sample, draw_keys, allSome, List.range, List.range.loop,
    seed_reservoir, multimap_insert, reservoir_loop, reservoir_step, example_pow, tie_rnd,
    List.range']

theorem example_exp_run :
    weighted_wor_reservoir_sample_exp example_pow example_log example_rnd example_data
      example_w 4 2 2 = Run.done [(1 / 2, 'a'), (5 / 8, 'd')] := by
  norm_num [weighted_wor_reservoir_sample_exp, draw_keys, allSome, List.range,
    List.range.loop, seed_reservoir, multimap_insert, jump_loop, skip_items, example_pow,
    example_log, example_rnd, example_data, example_w]

/-! ## The estimator: the claims -/

theorem refresh_weights (h1 : ℚ → ℚ → ℚ) (h2 : ℚ → ℚ) (R1 R2 : List pdd)
    (R1_filter R2_filter : ℚ → ℚ → Bool) (recompute_cdf : Bool) (c : Cache) :
    (refresh_cache h1 h2 R1 R2 R1_filter R2_filter true recompute_cdf c).R1_sample_weights
      = R1.map (fun t1 => h1 t1.1 t1.2 * ((matching R2 t1.1).map (fun t2 => h2 t2.2)).sum) := by
  unfold refresh_cache recompute
  cases recompute_cdf <;> simp [map_at_stratum_weights]

theorem refresh_normalisation (h1 : ℚ → ℚ → ℚ) (h2 : ℚ → ℚ) (R1 R2 : List pdd)
    (R1_filter R2_filter : ℚ → ℚ → Bool) (recompute_cdf : Bool) (c : Cache) :
    (refresh_cache h1 h2 R1 R2 R1_filter R2_filter true recompute_cdf c).normalisation
      = (R1.map (fun t1 =>
          h1 t1.1 t1.2 * ((matching R2 t1.1).map (fun t2 => h2 t2.2)).sum)).sum := by
  unfold refresh_cache recompute
  have h := foldl_add_eq
    (fun t1 : pdd => h1 t1.1 t1.2 * ((matching R2 t1.1).map (fun t2 => h2 t2.2)).sum) R1 0
  rw [zero_add] at h
  cases recompute_cdf <;> simp [h, map_at_stratum_weights]

theorem example_materialised_sample
    (range_sampler : Int → List ℚ → Option (List ℚ) → List Nat)
    (recompute_cdf : Bool) (filter_selectivity : ℚ) (rnd : Nat → Nat) (c : Cache)
    (hlen : (range_sampler (S_size 3 filter_selectivity) [1, 1, 1]
      (if recompute_cdf then some [1, 2, 3] else none)).length
        = (S_size 3 filter_selectivity).toNat)
    (hrange : ∀ j ∈ range_sampler (S_size 3 filter_selectivity) [1, 1, 1]
      (if recompute_cdf then some [1, 2, 3] else none), j < 3) :
    materialised_sample h1_unif h2_unif 3 example_R1 example_R2 range_sampler
      no_filter no_filter filter_selectivity true recompute_cdf rnd c
      = some ((range_sampler (S_size 3 filter_selectivity) [1, 1, 1]
          (if recompute_cdf then some [1, 2, 3] else none)).map example_tuple) := by
  unfold materialised_sample
  simp only [example_refresh]
  exact example_materialised rnd _ _ hlen hrange

theorem zero_sampler_length (size : Int) (w : List ℚ) (c_w : Option (List ℚ)) :
    (zero_sampler size w c_w).length = size.toNat := by
  simp [zero_sampler]

theorem zero_sampler_range (size : Int) (w : List ℚ) (c_w : Option (List ℚ)) :
    ∀ j ∈ zero_sampler size w c_w, j < 3 := by
  intro j hj
  have := List.eq_of_mem_replicate hj
  omega

theorem zero_sampler_count (size : Int) (w : List ℚ) (c_w : Option (List ℚ)) :
    ((zero_sampler size w c_w).take 3).count 2 = 0 := by
  rw [List.count_eq_zero]
  intro hmem
  have := List.eq_of_mem_replicate (List.mem_of_mem_take hmem)
  omega

theorem cyclic_sampler_length (size : Int) (w : List ℚ) (c_w : Option (List ℚ)) :
    (cyclic_sampler size w c_w).length = size.toNat := by
  simp [cyclic_sampler]

theorem cyclic_sampler_range (size : Int) (c_w : Option (List ℚ)) :
    ∀ j ∈ cyclic_sampler size [1, 1, 1] c_w, j < 3 := by
  intro j hj
  simp only [cyclic_sampler, List.mem_map, List.length_cons, List.length_nil] at hj
  obtain ⟨i, _, rfl⟩ := hj
  omega

/-- C1 (amended): on the end-to-end example (R1 = [(1,1),(1,2),(2,1)], R2 = [(1,10),(2,20)],
h1 ≡ 1, h2 ≡ 1, f(A,B,C) = C, no filter, m = 3, filter_selectivity = 1, normalisation
recomputed) the draw size is 104 and, for every vector of 104 indices in [0,3) that the range
sampler returns, `generic_sample_join` returns 30 + 10·k, where k is the number of the first
three drawn indices that are equal to 2; the value is 40 exactly when k = 1. -/
theorem end_to_end_example_value
    (range_sampler : Int → List ℚ → Option (List ℚ) → List Nat)
    (filtered_estimator recompute_cdf : Bool) (rnd : Nat → Nat) (c : Cache)
    (hlen : (range_sampler 104 [1, 1, 1]
      (if recompute_cdf then some [1, 2, 3] else none)).length = 104)
    (hrange : ∀ j ∈ range_sampler 104 [1, 1, 1]
      (if recompute_cdf then some [1, 2, 3] else none), j < 3) :
    S_size 3 1 = 104 ∧
    generic_sample_join h1_unif h2_unif 3 example_R1 example_R2 range_sampler aggregate_f
      no_filter no_filter filtered_estimator 1 true recompute_cdf rnd c
      = Except.ok (30 + 10 * ((((range_sampler 104 [1, 1, 1]
          (if recompute_cdf then some [1, 2, 3] else none)).take 3).count 2 : Nat) : ℚ),
          example_cache recompute_cdf) ∧
    ((30 : ℚ) + 10 * ((((range_sampler 104 [1, 1, 1]
          (if recompute_cdf then some [1, 2, 3] else none)).take 3).count 2 : Nat) : ℚ) = 40
      ↔ ((range_sampler 104 [1, 1, 1]
          (if recompute_cdf then some [1, 2, 3] else none)).take 3).count 2 = 1) := by
  have h := example_call range_sampler filtered_estimator recompute_cdf 1 (by norm_num) rnd c
  rw [S_size_example] at h
  refine ⟨S_size_example, h hlen hrange, ?_⟩
  constructor
  · intro h40
    have h1 : ((((range_sampler 104 [1, 1, 1]
          (if recompute_cdf then some [1, 2, 3] else none)).take 3).count 2 : Nat) : ℚ) = 1 := by
      linarith
    exact_mod_cast h1
  · intro h1
    rw [h1]; norm_num

/-- Witness of C1 (amended): the sampler that returns 0, 1, 2, 0, 1, 2, ... -/
theorem end_to_end_example_value_witness :
    S_size 3 1 = 104 ∧
    generic_sample_join h1_unif h2_unif 3 example_R1 example_R2 cyclic_sampler aggregate_f
      no_filter no_filter false 1 true true (fun _ => 0) (Cache.init example_R1)
      = Except.ok (30 + 10 * ((((cyclic_sampler 104 [1, 1, 1]
          (if true then some [1, 2, 3] else none)).take 3).count 2 : Nat) : ℚ),
          example_cache true) ∧
    ((30 : ℚ) + 10 * ((((cyclic_sampler 104 [1, 1, 1]
          (if true then some [1, 2, 3] else none)).take 3).count 2 : Nat) : ℚ) = 40
      ↔ ((cyclic_sampler 104 [1, 1, 1]
          (if true then some [1, 2, 3] else none)).take 3).count 2 = 1) :=
  end_to_end_example_value cyclic_sampler false true (fun _ => 0) (Cache.init example_R1)
    (cyclic_sampler_length 104 _ _) (cyclic_sampler_range 104 _)

/-- Counterexample to C1 as stated: the vector of 104 indices that are all 0 is a vector of
104 indices in [0,3), and on it the call of the end-to-end example returns 30, not 40. -/
theorem end_to_end_example_not_40 :
    (zero_sampler 104 [1, 1, 1] (some [1, 2, 3])).length = 104 ∧
    (∀ j ∈ zero_sampler 104 [1, 1, 1] (some [1, 2, 3]), j < 3) ∧
    generic_sample_join h1_unif h2_unif 3 example_R1 example_R2 zero_sampler aggregate_f
      no_filter no_filter false 1 true true (fun _ => 0) (Cache.init example_R1)
      = Except.ok (30, example_cache true) ∧
    (30 : ℚ) ≠ 40 := by
  refine ⟨zero_sampler_length 104 _ _, zero_sampler_range 104 _ _, ?_, by norm_num⟩
  have h := example_call zero_sampler false true 1 (by norm_num) (fun _ => 0)
    (Cache.init example_R1) (zero_sampler_length _ _ _) (zero_sampler_range _ _ _)
  rw [h, zero_sampler_count]
  norm_num

/-- C3: for a call with m ≥ 0 and a positive filter_selectivity whose sample materialises
(the sampler returned S_size indices into R1, each with a matching stratum), the sample has
S_size tuples, the call fails with the assertion exactly when the number of its tuples that
pass R1_filter(A,B) ∧ R2_filter(A,C) is strictly less than m, and in every other case the
call returns an estimate. -/
theorem fails_iff_filtered_count_below_m
    (h1 : ℚ → ℚ → ℚ) (h2 : ℚ → ℚ) (m : Int) (R1 R2 : List pdd)
    (range_sampler : Int → List ℚ → Option (List ℚ) → List Nat)
    (aggregation_f : ℚ → ℚ → ℚ → ℚ) (R1_filter R2_filter : ℚ → ℚ → Bool)
    (filtered_estimator : Bool) (filter_selectivity : ℚ)
    (recompute_normalisation recompute_cdf : Bool) (rnd : Nat → Nat) (c : Cache)
    (sample : List tdd) (hm : 0 ≤ m) (hsel : 0 < filter_selectivity)
    (hmat : materialised_sample h1 h2 m R1 R2 range_sampler R1_filter R2_filter
      filter_selectivity recompute_normalisation recompute_cdf rnd c = some sample) :
    sample.length = (S_size m filter_selectivity).toNat ∧
    (generic_sample_join h1 h2 m R1 R2 range_sampler aggregation_f R1_filter R2_filter
        filtered_estimator filter_selectivity recompute_normalisation recompute_cdf rnd c
        = Except.error Failure.assertion
      ↔ ((sample.countP (passes R1_filter R2_filter) : Nat) : Int) < m) ∧
    (¬ ((sample.countP (passes R1_filter R2_filter) : Nat) : Int) < m →
      ∃ estimate, generic_sample_join h1 h2 m R1 R2 range_sampler aggregation_f R1_filter
        R2_filter filtered_estimator filter_selectivity recompute_normalisation recompute_cdf
        rnd c
        = Except.ok (estimate, refresh_cache h1 h2 R1 R2 R1_filter R2_filter
            recompute_normalisation recompute_cdf c)) := by
  have hcall := call_of_materialised h1 h2 m R1 R2 range_sampler aggregation_f R1_filter
    R2_filter filtered_estimator filter_selectivity recompute_normalisation recompute_cdf rnd c
    sample hm hsel hmat
  have hlen : sample.length = (S_size m filter_selectivity).toNat := by
    unfold materialised_sample at hmat
    exact materialise_length hmat
  by_cases hlt : ((sample.countP (passes R1_filter R2_filter) : Nat) : Int) < m
  · rw [trim_assertion _ _ _ hlt] at hcall
    exact ⟨hlen, ⟨fun _ => hlt, fun _ => hcall⟩, fun h => absurd hlt h⟩
  · obtain ⟨retained, htrim, _, _⟩ :=
      trim_ok (passes R1_filter R2_filter) m sample hm (by omega)
    rw [htrim] at hcall
    refine ⟨hlen, ⟨fun h => ?_, fun h => absurd h hlt⟩, fun _ => ⟨_, hcall⟩⟩
    rw [hcall] at h
    cases h

/-- Witness of C3: the end-to-end example with the sampler that always returns index 0. -/
theorem fails_iff_filtered_count_below_m_witness :
    ((zero_sampler (S_size 3 1) [1, 1, 1] (if true then some [1, 2, 3] else none)).map
        example_tuple).length = (S_size 3 1).toNat ∧
    (generic_sample_join h1_unif h2_unif 3 example_R1 example_R2 zero_sampler aggregate_f
        no_filter no_filter false 1 true true (fun _ => 0) (Cache.init example_R1)
        = Except.error Failure.assertion
      ↔ ((((zero_sampler (S_size 3 1) [1, 1, 1] (if true then some [1, 2, 3] else none)).map
          example_tuple).countP (passes no_filter no_filter) : Nat) : Int) < 3) ∧
    (¬ ((((zero_sampler (S_size 3 1) [1, 1, 1] (if true then some [1, 2, 3] else none)).map
          example_tuple).countP (passes no_filter no_filter) : Nat) : Int) < 3 →
      ∃ estimate, generic_sample_join h1_unif h2_unif 3 example_R1 example_R2 zero_sampler
        aggregate_f no_filter no_filter false 1 true true (fun _ => 0) (Cache.init example_R1)
        = Except.ok (estimate, refresh_cache h1_unif h2_unif example_R1 example_R2 no_filter
            no_filter true true (Cache.init example_R1))) :=
  fails_iff_filtered_count_below_m h1_unif h2_unif 3 example_R1 example_R2 zero_sampler
    aggregate_f no_filter no_filter false 1 true true (fun _ => 0) (Cache.init example_R1)
    _ (by norm_num) (by norm_num)
    (example_materialised_sample zero_sampler true 1 (fun _ => 0) (Cache.init example_R1)
      (zero_sampler_length _ _ _) (zero_sampler_range _ _ _))

/-- C5: when the filter-passing count of the materialised sample is at least m (m ≥ 0,
positive filter_selectivity), the trimming loop retains a prefix of the sample with exactly
m filter-passing tuples, and the call returns T · filtered_normalisation / m if
filtered_estimator is true and T · normalisation / |retained| otherwise, where |retained|
counts all retained tuples and T is the sum over the retained tuples that pass both filters
of aggregation_f(A,B,C) / (h1(A,B) · h2(C)). -/
theorem estimate_is_rescaled_sum
    (h1 : ℚ → ℚ → ℚ) (h2 : ℚ → ℚ) (m : Int) (R1 R2 : List pdd)
    (range_sampler : Int → List ℚ → Option (List ℚ) → List Nat)
    (aggregation_f : ℚ → ℚ → ℚ → ℚ) (R1_filter R2_filter : ℚ → ℚ → Bool)
    (filtered_estimator : Bool) (filter_selectivity : ℚ)
    (recompute_normalisation recompute_cdf : Bool) (rnd : Nat → Nat) (c : Cache)
    (sample : List tdd) (hm : 0 ≤ m) (hsel : 0 < filter_selectivity)
    (hmat : materialised_sample h1 h2 m R1 R2 range_sampler R1_filter R2_filter
      filter_selectivity recompute_normalisation recompute_cdf rnd c = some sample)
    (hcount : m ≤ ((sample.countP (passes R1_filter R2_filter) : Nat) : Int)) :
    ∃ retained : List tdd,
      trim (passes R1_filter R2_filter) m sample = Except.ok (retained, m) ∧
      retained <+: sample ∧
      ((retained.countP (passes R1_filter R2_filter) : Nat) : Int) = m ∧
      generic_sample_join h1 h2 m R1 R2 range_sampler aggregation_f R1_filter R2_filter
        filtered_estimator filter_selectivity recompute_normalisation recompute_cdf rnd c
        = Except.ok
          (if filtered_estimator then
            passing_sum h1 h2 aggregation_f (passes R1_filter R2_filter) retained
              * (refresh_cache h1 h2 R1 R2 R1_filter R2_filter recompute_normalisation
                  recompute_cdf c).filtered_normalisation / (m : ℚ)
          else
            passing_sum h1 h2 aggregation_f (passes R1_filter R2_filter) retained
              * (refresh_cache h1 h2 R1 R2 R1_filter R2_filter recompute_normalisation
                  recompute_cdf c).normalisation / (retained.length : ℚ),
          refresh_cache h1 h2 R1 R2 R1_filter R2_filter recompute_normalisation
            recompute_cdf c) := by
  have hcall := call_of_materialised h1 h2 m R1 R2 range_sampler aggregation_f R1_filter
    R2_filter filtered_estimator filter_selectivity recompute_normalisation recompute_cdf rnd c
    sample hm hsel hmat
  obtain ⟨retained, htrim, hpre, hcnt⟩ :=
    trim_ok (passes R1_filter R2_filter) m sample hm hcount
  rw [htrim] at hcall
  refine ⟨retained, htrim, hpre, hcnt, ?_⟩
  rw [hcall]
  unfold rescale
  cases filtered_estimator <;> simp [mul_div_assoc]

/-- Witness of C5: the end-to-end example with the sampler that always returns index 0. -/
theorem estimate_is_rescaled_sum_witness :
    ∃ retained : List tdd,
      trim (passes no_filter no_filter) 3
        ((zero_sampler (S_size 3 1) [1, 1, 1] (if true then some [1, 2, 3] else none)).map
          example_tuple) = Except.ok (retained, 3) ∧
      retained <+: (zero_sampler (S_size 3 1) [1, 1, 1]
        (if true then some [1, 2, 3] else none)).map example_tuple ∧
      ((retained.countP (passes no_filter no_filter) : Nat) : Int) = 3 ∧
      generic_sample_join h1_unif h2_unif 3 example_R1 example_R2 zero_sampler aggregate_f
        no_filter no_filter false 1 true true (fun _ => 0) (Cache.init example_R1)
        = Except.ok
          (if false then
            passing_sum h1_unif h2_unif aggregate_f (passes no_filter no_filter) retained
              * (refresh_cache h1_unif h2_unif example_R1 example_R2 no_filter no_filter true
                  true (Cache.init example_R1)).filtered_normalisation / ((3 : Int) : ℚ)
          else
            passing_sum h1_unif h2_unif aggregate_f (passes no_filter no_filter) retained
              * (refresh_cache h1_unif h2_unif example_R1 example_R2 no_filter no_filter true
                  true (Cache.init example_R1)).normalisation / (retained.length : ℚ),
          refresh_cache h1_unif h2_unif example_R1 example_R2 no_filter no_filter true true
            (Cache.init example_R1)) :=
  estimate_is_rescaled_sum h1_unif h2_unif 3 example_R1 example_R2 zero_sampler
    aggregate_f no_filter no_filter false 1 true true (fun _ => 0) (Cache.init example_R1)
    _ (by norm_num) (by norm_num)
    (example_materialised_sample zero_sampler true 1 (fun _ => 0) (Cache.init example_R1)
      (zero_sampler_length _ _ _) (zero_sampler_range _ _ _))
    (by
      rw [List.countP_eq_length.mpr (fun t _ => passes_no_filter t), List.length_map,
        zero_sampler_length, S_size_example]
      decide)

theorem example_call_zero :
    generic_sample_join h1_unif h2_unif 3 example_R1 example_R2 zero_sampler aggregate_f
      no_filter no_filter false 1 true true (fun _ => 0) (Cache.init example_R1)
      = Except.ok (30, example_cache true) := by
  have h := example_call zero_sampler false true 1 (by norm_num) (fun _ => 0)
    (Cache.init example_R1) (zero_sampler_length _ _ _) (zero_sampler_range _ _ _)
  rw [h, zero_sampler_count]
  norm_num

theorem example_call_zero_cached :
    generic_sample_join h1_unif h2_unif 3 example_R1 example_R2 zero_sampler aggregate_f
      no_filter no_filter false 1 false false (fun _ => 0) (example_cache true)
      = Except.ok (30, example_cache true) := by
  have h := example_call_cached zero_sampler false true 1 (by norm_num) (fun _ => 0)
    (zero_sampler_length _ _ _) (zero_sampler_range _ _ _)
  rw [h, zero_sampler_count]
  norm_num

/-- C6: after a call to `generic_sample_join` with recompute_normalisation = true, the
static variable normalisation equals the sum of the sampling weight vector, and equals the
total weight of the join: the sum over all pairs (t1 in R1, t2 in R2) with t1.A = t2.A of
h1(t1.A, t1.B) · h2(t2.C). -/
theorem normalisation_is_join_weight
    (h1 : ℚ → ℚ → ℚ) (h2 : ℚ → ℚ) (m : Int) (R1 R2 : List pdd)
    (range_sampler : Int → List ℚ → Option (List ℚ) → List Nat)
    (aggregation_f : ℚ → ℚ → ℚ → ℚ) (R1_filter R2_filter : ℚ → ℚ → Bool)
    (filtered_estimator : Bool) (filter_selectivity : ℚ) (recompute_cdf : Bool)
    (rnd : Nat → Nat) (c : Cache) (estimate : ℚ) (c1 : Cache)
    (hcall : generic_sample_join h1 h2 m R1 R2 range_sampler aggregation_f R1_filter
      R2_filter filtered_estimator filter_selectivity true recompute_cdf rnd c
        = Except.ok (estimate, c1)) :
    c1.normalisation = c1.R1_sample_weights.sum ∧
    c1.normalisation
      = ((join_pairs R1 R2).map (fun p => h1 p.1.1 p.1.2 * h2 p.2.2)).sum := by
  rw [call_cache hcall, refresh_normalisation, refresh_weights,
    sum_join_pairs (fun p => h1 p.1.1 p.1.2 * h2 p.2.2)]
  refine ⟨rfl, ?_⟩
  congr 1
  apply List.map_congr_left
  intro t1 _
  rw [← List.sum_map_mul_left]

/-- Witness of C6: the end-to-end example with the sampler that always returns index 0. -/
theorem normalisation_is_join_weight_witness :
    (example_cache true).normalisation = (example_cache true).R1_sample_weights.sum ∧
    (example_cache true).normalisation
      = ((join_pairs example_R1 example_R2).map
          (fun p => h1_unif p.1.1 p.1.2 * h2_unif p.2.2)).sum :=
  normalisation_is_join_weight h1_unif h2_unif 3 example_R1 example_R2 zero_sampler
    aggregate_f no_filter no_filter false 1 true (fun _ => 0) (Cache.init example_R1)
    30 (example_cache true) example_call_zero

/-- C7: after a call to `generic_sample_join` with recompute_normalisation = true, the
sampling weight vector has one entry per R1 tuple; for every index i of R1 the entry
R1_sample_weights[i] equals h1(A_i,B_i) times the sum of h2(C) over the R2 tuples whose key
equals A_i; it is exactly 0 when no R2 tuple has key A_i; and an index with a positive
sampling weight has a non-empty matching stratum. -/
theorem sampling_weight_is_h1_times_stratum_weight
    (h1 : ℚ → ℚ → ℚ) (h2 : ℚ → ℚ) (m : Int) (R1 R2 : List pdd)
    (range_sampler : Int → List ℚ → Option (List ℚ) → List Nat)
    (aggregation_f : ℚ → ℚ → ℚ → ℚ) (R1_filter R2_filter : ℚ → ℚ → Bool)
    (filtered_estimator : Bool) (filter_selectivity : ℚ) (recompute_cdf : Bool)
    (rnd : Nat → Nat) (c : Cache) (estimate : ℚ) (c1 : Cache)
    (hcall : generic_sample_join h1 h2 m R1 R2 range_sampler aggregation_f R1_filter
      R2_filter filtered_estimator filter_selectivity true recompute_cdf rnd c
        = Except.ok (estimate, c1))
    (i : Nat) (hi : i < R1.length) :
    c1.R1_sample_weights.length = R1.length ∧
    c1.R1_sample_weights[i]?
      = some (h1 R1[i].1 R1[i].2
          * ((R2.filter (fun t2 => decide (t2.1 = R1[i].1))).map (fun t2 => h2 t2.2)).sum) ∧
    ((∀ t2 ∈ R2, t2.1 ≠ R1[i].1) → c1.R1_sample_weights[i]? = some 0) ∧
    (∀ w, c1.R1_sample_weights[i]? = some w → 0 < w →
      ∃ stratum, (stratify R2).lookup R1[i].1 = some stratum ∧ stratum ≠ []) := by
  have hw : c1.R1_sample_weights[i]?
      = some (h1 R1[i].1 R1[i].2
          * ((R2.filter (fun t2 => decide (t2.1 = R1[i].1))).map (fun t2 => h2 t2.2)).sum) := by
    rw [call_cache hcall, refresh_weights, List.getElem?_map, List.getElem?_eq_getElem hi]
    rfl
  have hempty : (∀ t2 ∈ R2, t2.1 ≠ R1[i].1) →
      R2.filter (fun t2 => decide (t2.1 = R1[i].1)) = [] := by
    intro hno
    rw [List.filter_eq_nil_iff]
    intro t2 ht2
    simpa using hno t2 ht2
  refine ⟨?_, hw, ?_, ?_⟩
  · rw [call_cache hcall, refresh_weights, List.length_map]
  · intro hno
    rw [hw, hempty hno]
    simp
  · intro w hwi hpos
    rw [hw] at hwi
    injection hwi with hwi
    rw [lookup_stratify]
    by_cases hk : R1[i].1 ∈ R2.map Prod.fst
    · refine ⟨_, if_pos hk, ?_⟩
      obtain ⟨t2, ht2, hkey⟩ := List.mem_map.mp hk
      intro hnil
      have hmem : t2 ∈ R2.filter (fun t2 => decide (t2.1 = R1[i].1)) := by
        rw [List.mem_filter]
        exact ⟨ht2, by simpa using hkey⟩
      rw [hnil] at hmem
      cases hmem
    · exfalso
      have hno : ∀ t2 ∈ R2, t2.1 ≠ R1[i].1 := by
        intro t2 ht2 hkey
        exact hk (List.mem_map.mpr ⟨t2, ht2, hkey⟩)
      rw [hempty hno] at hwi
      simp at hwi
      rw [← hwi] at hpos
      exact lt_irrefl _ hpos

/-- Witness of C7: index 2 of the end-to-end example, after the call with the sampler that
always returns index 0. -/
theorem sampling_weight_is_h1_times_stratum_weight_witness :
    (example_cache true).R1_sample_weights.length = example_R1.length ∧
    (example_cache true).R1_sample_weights[2]?
      = some (h1_unif (example_R1.get ⟨2, by decide⟩).1 (example_R1.get ⟨2, by decide⟩).2
          * ((example_R2.filter
              (fun t2 => decide (t2.1 = (example_R1.get ⟨2, by decide⟩).1))).map
                (fun t2 => h2_unif t2.2)).sum) ∧
    ((∀ t2 ∈ example_R2, t2.1 ≠ (example_R1.get ⟨2, by decide⟩).1) →
      (example_cache true).R1_sample_weights[2]? = some 0) ∧
    (∀ w, (example_cache true).R1_sample_weights[2]? = some w → 0 < w →
      ∃ stratum, (stratify example_R2).lookup (example_R1.get ⟨2, by decide⟩).1 = some stratum
        ∧ stratum ≠ []) :=
  sampling_weight_is_h1_times_stratum_weight h1_unif h2_unif 3 example_R1 example_R2
    zero_sampler aggregate_f no_filter no_filter false 1 true (fun _ => 0)
    (Cache.init example_R1) 30 (example_cache true) example_call_zero 2 (by decide)

/-- C10: a call to `generic_sample_join` with recompute_normalisation = false and
recompute_cdf = false leaves the static variables (normalisation, filtered_normalisation,
both weight vectors and the cached CDF) exactly as it found them and computes its result
from those values; so after a call with both flags true that left the variables c1, two
consecutive calls with both flags false, whatever their samplers and random draws, both
compute their estimates from c1 and leave c1 behind. -/
theorem cache_unchanged_without_recompute
    (h1 : ℚ → ℚ → ℚ) (h2 : ℚ → ℚ) (m : Int) (R1 R2 : List pdd)
    (sampler1 sampler2 sampler3 : Int → List ℚ → Option (List ℚ) → List Nat)
    (aggregation_f : ℚ → ℚ → ℚ → ℚ) (R1_filter R2_filter : ℚ → ℚ → Bool)
    (filtered_estimator : Bool) (filter_selectivity : ℚ)
    (rnd1 rnd2 rnd3 : Nat → Nat) (c c1 c2 c3 : Cache) (e1 e2 e3 : ℚ)
    (hcall1 : generic_sample_join h1 h2 m R1 R2 sampler1 aggregation_f R1_filter R2_filter
      filtered_estimator filter_selectivity true true rnd1 c = Except.ok (e1, c1))
    (hcall2 : generic_sample_join h1 h2 m R1 R2 sampler2 aggregation_f R1_filter R2_filter
      filtered_estimator filter_selectivity false false rnd2 c1 = Except.ok (e2, c2))
    (hcall3 : generic_sample_join h1 h2 m R1 R2 sampler3 aggregation_f R1_filter R2_filter
      filtered_estimator filter_selectivity false false rnd3 c2 = Except.ok (e3, c3)) :
    refresh_cache h1 h2 R1 R2 R1_filter R2_filter false false c1 = c1 ∧
    c2 = c1 ∧ c3 = c1 ∧
    c1 = refresh_cache h1 h2 R1 R2 R1_filter R2_filter true true c ∧
    sample_and_estimate h1 h2 m R1 R2 sampler2 aggregation_f R1_filter R2_filter
      filtered_estimator filter_selectivity rnd2 c1 = Except.ok e2 ∧
    sample_and_estimate h1 h2 m R1 R2 sampler3 aggregation_f R1_filter R2_filter
      filtered_estimator filter_selectivity rnd3 c1 = Except.ok e3 := by
  have hid : ∀ c0 : Cache,
      refresh_cache h1 h2 R1 R2 R1_filter R2_filter false false c0 = c0 := by
    intro c0
    simp [refresh_cache]
  have h21 : c2 = c1 := by rw [call_cache hcall2, hid]
  have h32 : c3 = c2 := by rw [call_cache hcall3, hid]
  have hest : ∀ (sampler : Int → List ℚ → Option (List ℚ) → List Nat) (rnd : Nat → Nat)
      (c0 c0' : Cache) (e : ℚ),
      generic_sample_join h1 h2 m R1 R2 sampler aggregation_f R1_filter R2_filter
        filtered_estimator filter_selectivity false false rnd c0 = Except.ok (e, c0') →
      sample_and_estimate h1 h2 m R1 R2 sampler aggregation_f R1_filter R2_filter
        filtered_estimator filter_selectivity rnd c0 = Except.ok e := by
    intro sampler rnd c0 c0' e h
    unfold generic_sample_join at h
    simp only [hid] at h
    split at h
    · cases h
    · rename_i est hest
      injection h with h
      have he : est = e := congrArg Prod.fst h
      rw [hest, he]
  refine ⟨hid c1, h21, h32.trans h21, call_cache hcall1, hest _ _ _ _ _ hcall2, ?_⟩
  rw [h21] at hcall3
  exact hest _ _ _ _ _ hcall3

/-- Witness of C10: three calls on the end-to-end example, the first with both flags true. -/
theorem cache_unchanged_without_recompute_witness :
    refresh_cache h1_unif h2_unif example_R1 example_R2 no_filter no_filter false false
      (example_cache true) = example_cache true ∧
    example_cache true = example_cache true ∧ example_cache true = example_cache true ∧
    example_cache true = refresh_cache h1_unif h2_unif example_R1 example_R2 no_filter
      no_filter true true (Cache.init example_R1) ∧
    sample_and_estimate h1_unif h2_unif 3 example_R1 example_R2 zero_sampler aggregate_f
      no_filter no_filter false 1 (fun _ => 0) (example_cache true) = Except.ok 30 ∧
    sample_and_estimate h1_unif h2_unif 3 example_R1 example_R2 zero_sampler aggregate_f
      no_filter no_filter false 1 (fun _ => 0) (example_cache true) = Except.ok 30 :=
  cache_unchanged_without_recompute h1_unif h2_unif 3 example_R1 example_R2
    zero_sampler zero_sampler zero_sampler aggregate_f no_filter no_filter false 1
    (fun _ => 0) (fun _ => 0) (fun _ => 0) (Cache.init example_R1)
    (example_cache true) (example_cache true) (example_cache true) 30 30 30
    example_call_zero example_call_zero_cached example_call_zero_cached

/-- C2 (the code at a failing input): for R1 = [(1,1)], R2 = [(1,1),(1,3)], h1 ≡ 1,
h2(C) = C (positive on both join tuples), f ≡ 1 and no filter, the normalisation is 4, the
expected value of the per-tuple estimate under the sampling scheme of the code (build index
by sampling weight, probe partner uniform in the stratum) is 8/3, and the exact join
aggregate is 2. -/
theorem expected_estimate_biased :
    (refresh_cache h1_unif h2_weighted skew_R1 skew_R2 no_filter no_filter true false
      (Cache.init skew_R1)).normalisation = 4 ∧
    expected_estimate h1_unif h2_weighted count_f skew_R1 skew_R2
      (refresh_cache h1_unif h2_weighted skew_R1 skew_R2 no_filter no_filter true false
        (Cache.init skew_R1)) = 8 / 3 ∧
    exact_aggregate count_f skew_R1 skew_R2 = 2 := by
  have hc : refresh_cache h1_unif h2_weighted skew_R1 skew_R2 no_filter no_filter true false
      (Cache.init skew_R1)
      = { normalisation := 4, filtered_normalisation := 4, R1_sample_weights := [4],
          R1_filtered_sample_weights := [4], R1_sample_weights_cdf := none } := by
    unfold refresh_cache recompute
    simp only [map_at_stratum_weights, map_at_filtered_stratum_weights]
    simp [skew_R1, skew_R2, matching, h1_unif, h2_weighted, no_filter]
    norm_num
  rw [hc]
  refine ⟨rfl, ?_, ?_⟩
  · simp [expected_estimate, stratum_of, lookup_stratify, skew_R1, skew_R2, tuple_estimate,
      h1_unif, h2_weighted, count_f]
    norm_num
  · simp [exact_aggregate, join_pairs, skew_R1, skew_R2, count_f, product_cons_left,
      product_nil_left]
    norm_num

/-! ## The reservoir samplers: the claims -/

/-- C8: for all n ≥ m > 0, with `data` and `w` holding at least n items, Algorithm A
(`weighted_wor_reservoir_sample`) returns a multimap of exactly m (key, item) entries, and
every run of the exponential-jump variant (`weighted_wor_reservoir_sample_exp`) that
returns, returns a multimap of exactly m entries; the variant never runs into undefined
behaviour, so the only way for it not to return is not to terminate. -/
theorem reservoir_samplers_return_m_entries {D : Type} (pow : ℚ → ℚ → ℚ) (log : ℚ → ℚ)
    (rnd : Nat → ℚ) (data : List D) (w : List Int) (n m : Nat)
    (hmn : m ≤ n) (hm : 0 < m) (hd : n ≤ data.length) (hw : n ≤ w.length) :
    (∃ result, weighted_wor_reservoir_sample pow rnd data w n m = some result ∧
      result.length = m) ∧
    (∀ fuel result,
      weighted_wor_reservoir_sample_exp pow log rnd data w n m fuel = Run.done result →
      result.length = m) ∧
    (∀ fuel,
      weighted_wor_reservoir_sample_exp pow log rnd data w n m fuel ≠ Run.undefined) := by
  obtain ⟨keys, result, _, _, hA, hinv⟩ := algorithm_A_inv pow rnd data w n m hmn hm hd hw
  obtain ⟨keys1, hkeys1, hlen1⟩ := draw_keys_some pow rnd w m (by omega)
  obtain ⟨seed, hseed, hseedinv⟩ := seed_reservoir_inv keys1 data m (by omega) (by omega)
  have hexp : ∀ fuel, weighted_wor_reservoir_sample_exp pow log rnd data w n m fuel
      = jump_loop pow log rnd data w n fuel m seed m := by
    intro fuel
    unfold weighted_wor_reservoir_sample_exp
    simp only [hkeys1, hseed]
  refine ⟨⟨result, hA, reservoir_inv_length hinv⟩, ?_, ?_⟩
  · intro fuel final hdone
    rw [hexp] at hdone
    rw [jump_loop_done_size pow log rnd data w n fuel m seed m final hdone]
    exact reservoir_inv_length hseedinv
  · intro fuel hundef
    rw [hexp] at hundef
    rcases jump_loop_size pow log rnd data w n m hm hd hw fuel m seed m
        (reservoir_inv_length hseedinv) with h | h
    · rw [h] at hundef; cases hundef
    · obtain ⟨final, h, _⟩ := h
      rw [h] at hundef; cases hundef

/-- Witness of C8: four rows of weight 1 and m = 2; the run of the exponential-jump variant
on `example_rnd` returns after two iterations of its outer loop (`example_exp_run`). -/
theorem reservoir_samplers_return_m_entries_witness :
    (∃ result, weighted_wor_reservoir_sample example_pow example_rnd example_data example_w
      4 2 = some result ∧ result.length = 2) ∧
    (∀ fuel result,
      weighted_wor_reservoir_sample_exp example_pow example_log example_rnd example_data
        example_w 4 2 fuel = Run.done result →
      result.length = 2) ∧
    (∀ fuel,
      weighted_wor_reservoir_sample_exp example_pow example_log example_rnd example_data
        example_w 4 2 fuel ≠ Run.undefined) :=
  reservoir_samplers_return_m_entries example_pow example_log example_rnd example_data
    example_w 4 2 (by decide) (by decide) (by decide) (by decide)

/-- C9 (amended): for all n ≥ m > 0 and every assignment of keys
keys[i] = U_i^(1/w[i]) to the n items, Algorithm A returns a reservoir whose multiset of
keys is the multiset of the m largest values of keys[0..n), and whose entries are
(keys[i], data[i]) for pairwise distinct indices i < n, listed by key and, for equal keys,
by index. On equal keys: an item whose key does not exceed the current minimum key is not
admitted and leaves the reservoir as it is, and an admitted item replaces the first entry
of the reservoir, which among the entries of minimum key is the one of smallest index. -/
theorem algorithm_A_keeps_largest_keys {D : Type} (pow : ℚ → ℚ → ℚ) (rnd : Nat → ℚ)
    (data : List D) (w : List Int) (n m : Nat)
    (hmn : m ≤ n) (hm : 0 < m) (hd : n ≤ data.length) (hw : n ≤ w.length) :
    ∃ (keys : List ℚ) (result : List (ℚ × D)) (tagged : List (Tagged D)),
      draw_keys pow rnd w n = some keys ∧ keys.length = n ∧
      weighted_wor_reservoir_sample pow rnd data w n m = some result ∧
      (result.map Prod.fst).Perm (largest_keys m keys) ∧
      entries_of keys data n result tagged ∧
      List.Pairwise tag_order tagged ∧
      (∀ (least : ℚ × D) (rest : List (ℚ × D)) (i : Nat) (k : ℚ),
        keys[i]? = some k → k ≤ least.1 →
        reservoir_step keys data (least :: rest) i = some (least :: rest)) ∧
      (∀ (least : ℚ × D) (rest : List (ℚ × D)) (i : Nat) (k : ℚ) (d : D),
        keys[i]? = some k → data[i]? = some d → least.1 < k →
        reservoir_step keys data (least :: rest) i = some (multimap_insert (k, d) rest)) := by
  obtain ⟨keys, result, hkeys, hlen, hA, hinv⟩ :=
    algorithm_A_inv pow rnd data w n m hmn hm hd hw
  have hsize := reservoir_inv_length hinv
  obtain ⟨tagged, hentries, _, horder, E, hperm, hE⟩ := hinv
  refine ⟨keys, result, tagged, hkeys, hlen, hA, ?_, hentries, horder, ?_, ?_⟩
  · have htake : keys.take n = keys := List.take_of_length_le (by omega)
    rw [htake] at hperm
    exact (top_unique keys (result.map Prod.fst) E m hperm hE (by simpa using hsize)).symm
  · intro least rest i k hk hle
    have : ¬ (k > least.1) := not_lt.mpr hle
    simp [reservoir_step, hk, this]
  · intro least rest i k d hk hdat hlt
    have : k > least.1 := hlt
    simp [reservoir_step, hk, hdat, this]

/-- Witness of C9 (amended): four rows of weight 1 and m = 2. -/
theorem algorithm_A_keeps_largest_keys_witness :
    ∃ (keys : List ℚ) (result : List (ℚ × Char)) (tagged : List (Tagged Char)),
      draw_keys example_pow example_rnd example_w 4 = some keys ∧ keys.length = 4 ∧
      weighted_wor_reservoir_sample example_pow example_rnd example_data example_w 4 2
        = some result ∧
      (result.map Prod.fst).Perm (largest_keys 2 keys) ∧
      entries_of keys example_data 4 result tagged ∧
      List.Pairwise tag_order tagged ∧
      (∀ (least : ℚ × Char) (rest : List (ℚ × Char)) (i : Nat) (k : ℚ),
        keys[i]? = some k → k ≤ least.1 →
        reservoir_step keys example_data (least :: rest) i = some (least :: rest)) ∧
      (∀ (least : ℚ × Char) (rest : List (ℚ × Char)) (i : Nat) (k : ℚ) (d : Char),
        keys[i]? = some k → example_data[i]? = some d → least.1 < k →
        reservoir_step keys example_data (least :: rest) i
          = some (multimap_insert (k, d) rest)) :=
  algorithm_A_keeps_largest_keys example_pow example_rnd example_data example_w 4 2
    (by decide) (by decide) (by decide) (by decide)

/-- Counterexample to C9 as stated: three rows 'a', 'b', 'c' of weight 1 and m = 2, with
`rand()` returning 0, 0 and RAND_MAX, so that the keys are 0, 0, 1. The reservoir returned
holds 'b' and 'c': of the two rows with the equal key 0 the later one ('b') is kept and the
earlier one ('a') is evicted. -/
theorem algorithm_A_tie_evicts_earlier :
    draw_keys example_pow tie_rnd [1, 1, 1] 3 = some [0, 0, 1] ∧
    weighted_wor_reservoir_sample example_pow tie_rnd ['a', 'b', 'c'] [1, 1, 1] 3 2
      = some [(0, 'b'), (1, 'c')] := by
  refine ⟨?_, tie_run⟩
  simp [draw_keys, allSome, List.range, List.range.loop, example_pow, tie_rnd]

/-! ## Second part of the estimator claims -/

theorem sum_filter_map {α : Type} (p : α → Bool) (g : α → ℚ) (l : List α) :
    ((l.filter p).map g).sum = (l.map (fun x => if p x then g x else 0)).sum := by
  induction l with
  | nil => simp
  | cons x rest ih =>
    cases h : p x <;> simp [List.filter_cons, h, ih]

theorem refresh_filtered_weights (h1 : ℚ → ℚ → ℚ) (h2 : ℚ → ℚ) (R1 R2 : List pdd)
    (R1_filter R2_filter : ℚ → ℚ → Bool) (recompute_cdf : Bool) (c : Cache) :
    (refresh_cache h1 h2 R1 R2 R1_filter R2_filter true recompute_cdf
        c).R1_filtered_sample_weights
      = R1.map (fun t1 =>
          if R1_filter t1.1 t1.2 then
            h1 t1.1 t1.2 * (((matching R2 t1.1).filter (fun t2 => R2_filter t2.1 t2.2)).map
              (fun t2 => h2 t2.2)).sum
          else 0) := by
  unfold refresh_cache recompute
  cases recompute_cdf <;> simp [map_at_filtered_stratum_weights]

theorem refresh_filtered_normalisation (h1 : ℚ → ℚ → ℚ) (h2 : ℚ → ℚ) (R1 R2 : List pdd)
    (R1_filter R2_filter : ℚ → ℚ → Bool) (recompute_cdf : Bool) (c : Cache) :
    (refresh_cache h1 h2 R1 R2 R1_filter R2_filter true recompute_cdf
        c).filtered_normalisation
      = (R1.map (fun t1 =>
          if R1_filter t1.1 t1.2 then
            h1 t1.1 t1.2 * (((matching R2 t1.1).filter (fun t2 => R2_filter t2.1 t2.2)).map
              (fun t2 => h2 t2.2)).sum
          else 0)).sum := by
  unfold refresh_cache recompute
  have h := foldl_cond_eq (fun t1 : pdd => R1_filter t1.1 t1.2)
    (fun t1 : pdd => h1 t1.1 t1.2
      * (((matching R2 t1.1).filter (fun t2 => R2_filter t2.1 t2.2)).map
          (fun t2 => h2 t2.2)).sum) R1 0
  rw [zero_add, sum_filter_map] at h
  cases recompute_cdf <;> simp [h, map_at_filtered_stratum_weights]

theorem sum_filtered_join_pairs (h1 : ℚ → ℚ → ℚ) (h2 : ℚ → ℚ) (R1 R2 : List pdd)
    (R1_filter R2_filter : ℚ → ℚ → Bool) :
    (((join_pairs R1 R2).filter
        (fun p => R1_filter p.1.1 p.1.2 && R2_filter p.2.1 p.2.2)).map
        (fun p => h1 p.1.1 p.1.2 * h2 p.2.2)).sum
      = (R1.map (fun t1 =>
          if R1_filter t1.1 t1.2 then
            h1 t1.1 t1.2 * (((matching R2 t1.1).filter (fun t2 => R2_filter t2.1 t2.2)).map
              (fun t2 => h2 t2.2)).sum
          else 0)).sum := by
  rw [sum_filter_map, sum_join_pairs]
  congr 1
  apply List.map_congr_left
  intro t1 _
  cases hf : R1_filter t1.1 t1.2
  · simp [hf]
  · simp only [hf, Bool.true_and, if_true]
    rw [← sum_filter_map (fun t2 : pdd => R2_filter t2.1 t2.2)
      (fun t2 => h1 t1.1 t1.2 * h2 t2.2), ← List.sum_map_mul_left]

/-- C16: after a call to `generic_sample_join` with recompute_normalisation = true, the
static variable filtered_normalisation equals the sum of the filtered sampling weight
vector, and equals the total weight of the filtered join: the sum over all pairs
(t1 in R1, t2 in R2) with t1.A = t2.A, R1_filter(t1.A, t1.B) and R2_filter(t2.A, t2.C) of
h1(t1.A, t1.B) · h2(t2.C). -/
theorem filtered_normalisation_is_filtered_join_weight
    (h1 : ℚ → ℚ → ℚ) (h2 : ℚ → ℚ) (m : Int) (R1 R2 : List pdd)
    (range_sampler : Int → List ℚ → Option (List ℚ) → List Nat)
    (aggregation_f : ℚ → ℚ → ℚ → ℚ) (R1_filter R2_filter : ℚ → ℚ → Bool)
    (filtered_estimator : Bool) (filter_selectivity : ℚ) (recompute_cdf : Bool)
    (rnd : Nat → Nat) (c : Cache) (estimate : ℚ) (c1 : Cache)
    (hcall : generic_sample_join h1 h2 m R1 R2 range_sampler aggregation_f R1_filter
      R2_filter filtered_estimator filter_selectivity true recompute_cdf rnd c
        = Except.ok (estimate, c1)) :
    c1.filtered_normalisation = c1.R1_filtered_sample_weights.sum ∧
    c1.filtered_normalisation
      = (((join_pairs R1 R2).filter
          (fun p => R1_filter p.1.1 p.1.2 && R2_filter p.2.1 p.2.2)).map
          (fun p => h1 p.1.1 p.1.2 * h2 p.2.2)).sum := by
  rw [call_cache hcall, refresh_filtered_normalisation, refresh_filtered_weights,
    sum_filtered_join_pairs]
  exact ⟨rfl, rfl⟩

/-- Witness of C16: the end-to-end example with the sampler that always returns index 0. -/
theorem filtered_normalisation_is_filtered_join_weight_witness :
    (example_cache true).filtered_normalisation
      = (example_cache true).R1_filtered_sample_weights.sum ∧
    (example_cache true).filtered_normalisation
      = (((join_pairs example_R1 example_R2).filter
          (fun p => no_filter p.1.1 p.1.2 && no_filter p.2.1 p.2.2)).map
          (fun p => h1_unif p.1.1 p.1.2 * h2_unif p.2.2)).sum :=
  filtered_normalisation_is_filtered_join_weight h1_unif h2_unif 3 example_R1 example_R2
    zero_sampler aggregate_f no_filter no_filter false 1 true (fun _ => 0)
    (Cache.init example_R1) 30 (example_cache true) example_call_zero

theorem trim_back_longest (pass : tdd → Bool) (m : Int) (hm : 0 ≤ m) :
    ∀ (back : List tdd) (count : Int), count = (back.countP pass : Nat) → m ≤ count →
      ∃ kept, trim_back pass m back count = some (kept, m) ∧
        ((kept.countP pass : Nat) : Int) = m ∧
        (kept = back ∨ ∃ removed t, back = removed ++ t :: kept ∧ pass t = true) := by
  intro back
  induction back with
  | nil =>
    intro count hc hle
    simp only [List.countP_nil, Nat.cast_zero] at hc
    have hm0 : m = 0 := by omega
    subst hm0
    subst hc
    exact ⟨[], by simp [trim_back], by simp, Or.inl rfl⟩
  | cons t rest ih =>
    intro count hc hle
    by_cases hgt : count > m
    · have hstep : trim_back pass m (t :: rest) count
          = trim_back pass m rest (if pass t then count - 1 else count) := by
        simp [trim_back, hgt]
      have hc1 : (if pass t then count - 1 else count) = (rest.countP pass : Nat) := by
        cases hp : pass t
        · simp [List.countP_cons, hp] at hc ⊢; exact hc
        · simp [List.countP_cons, hp] at hc ⊢; omega
      have hle1 : m ≤ (if pass t then count - 1 else count) := by
        split <;> omega
      obtain ⟨kept, h1, h2, h3⟩ := ih _ hc1 hle1
      refine ⟨kept, by rw [hstep, h1], h2, Or.inr ?_⟩
      rcases h3 with h3 | ⟨removed, u, h3, hu⟩
      · subst h3
        refine ⟨[], t, rfl, ?_⟩
        cases hp : pass t
        · exfalso
          simp only [hp, Bool.false_eq_true, if_false] at hc1
          omega
        · rfl
      · exact ⟨t :: removed, u, by rw [h3]; rfl, hu⟩
    · have heq : count = m := by omega
      refine ⟨t :: rest, ?_, ?_, Or.inl rfl⟩
      · simp [trim_back, hgt, heq]
      · rw [← hc, heq]

/-- C12: for every m ≥ 0 and every materialised sample with at least m filter-passing
tuples, the trimming loop of `generic_sample_join` retains a prefix of the sample that
contains exactly m filter-passing tuples, and it is the longest such prefix: every prefix
of the sample with exactly m passing tuples is no longer than the retained one (so the
failing tuples between the m-th and the (m+1)-th passing tuple are kept), and nothing is
removed when the count already equals m. -/
theorem trim_keeps_longest_prefix (pass : tdd → Bool) (m : Int) (sample : List tdd)
    (hm : 0 ≤ m) (hle : m ≤ ((sample.countP pass : Nat) : Int)) :
    ∃ retained, trim pass m sample = Except.ok (retained, m) ∧
      retained <+: sample ∧
      ((retained.countP pass : Nat) : Int) = m ∧
      (∀ p : List tdd, p <+: sample → ((p.countP pass : Nat) : Int) = m →
        p.length ≤ retained.length) ∧
      (((sample.countP pass : Nat) : Int) = m → retained = sample) := by
  obtain ⟨kept, h1, h2, h3⟩ :=
    trim_back_longest pass m hm sample.reverse (sample.countP pass : Nat) (by simp) hle
  have htrim : trim pass m sample = Except.ok (kept.reverse, m) := by
    unfold trim
    have hnot : ¬ (((sample.countP pass : Nat) : Int) < m) := by omega
    simp only [hnot, if_false, h1]
  have hcount : ((kept.reverse.countP pass : Nat) : Int) = m := by simpa using h2
  rcases h3 with h3 | ⟨removed, t, h3, ht⟩
  · have hk : kept.reverse = sample := by rw [h3, List.reverse_reverse]
    refine ⟨kept.reverse, htrim, by rw [hk], hcount, ?_, fun _ => hk⟩
    intro p hp _
    rw [hk]
    exact hp.length_le
  · have hs : sample = kept.reverse ++ t :: removed.reverse := by
      have := congrArg List.reverse h3
      simpa using this
    refine ⟨kept.reverse, htrim, ⟨t :: removed.reverse, hs.symm⟩, hcount, ?_, ?_⟩
    · intro p hp hpc
      by_contra hlong
      have hlt : kept.length < p.length := by
        simp only [List.length_reverse] at hlong
        omega
      have hpre : (kept.reverse ++ [t]) <+: p := by
        have h4 : (kept.reverse ++ [t]) <+: sample :=
          ⟨removed.reverse, by rw [hs]; simp⟩
        exact List.prefix_of_prefix_length_le h4 hp (by simp; omega)
      have hc := hpre.sublist.countP_le pass
      simp only [List.countP_append, List.countP_cons, List.countP_nil, ht, if_true] at hc
      omega
    · intro heq
      exfalso
      rw [hs] at heq
      simp only [List.countP_append, List.countP_cons, ht, if_true] at heq
      omega

/-- Witness of C12: two passing tuples, a failing one and a passing one, trimmed to m = 2;
the filter passes the tuples whose A is 1. -/
theorem trim_keeps_longest_prefix_witness :
    ∃ retained,
      trim (fun t => decide (t.1 = 1)) 2 [(1, 0, 0), (1, 0, 0), (0, 0, 0), (1, 0, 0)]
        = Except.ok (retained, 2) ∧
      retained <+: [(1, 0, 0), (1, 0, 0), (0, 0, 0), (1, 0, 0)] ∧
      ((retained.countP (fun t => decide (t.1 = 1)) : Nat) : Int) = 2 ∧
      (∀ p : List tdd, p <+: [(1, 0, 0), (1, 0, 0), (0, 0, 0), (1, 0, 0)] →
        ((p.countP (fun t => decide (t.1 = 1)) : Nat) : Int) = 2 →
        p.length ≤ retained.length) ∧
      ((((([(1, 0, 0), (1, 0, 0), (0, 0, 0), (1, 0, 0)] : List tdd).countP
          (fun t => decide (t.1 = 1)) : Nat) : Int) = 2) →
        retained = [(1, 0, 0), (1, 0, 0), (0, 0, 0), (1, 0, 0)]) :=
  trim_keeps_longest_prefix (fun t => decide (t.1 = 1)) 2
    [(1, 0, 0), (1, 0, 0), (0, 0, 0), (1, 0, 0)] (by decide) (by simp)

theorem cdf_current_init (R1 : List pdd) : cdf_current (Cache.init R1) := Or.inl rfl

theorem cdf_current_refresh (h1 : ℚ → ℚ → ℚ) (h2 : ℚ → ℚ) (R1 R2 : List pdd)
    (R1_filter R2_filter : ℚ → ℚ → Bool) (recompute_normalisation recompute_cdf : Bool)
    (c : Cache) (hc : cdf_current c) :
    cdf_current (refresh_cache h1 h2 R1 R2 R1_filter R2_filter recompute_normalisation
      recompute_cdf c) := by
  unfold cdf_current refresh_cache recompute at *
  cases recompute_normalisation <;> cases recompute_cdf
  · simpa using hc
  · simp
  · simp
  · simp

theorem cdf_current_after (calls : List Call) :
    ∀ c : Cache, cdf_current c → cdf_current (cache_after c calls) := by
  induction calls with
  | nil => intro c hc; exact hc
  | cons call rest ih =>
    intro c hc
    exact ih _ (cdf_current_refresh _ _ _ _ _ _ _ _ c hc)

theorem call_sampler_args (h1 : ℚ → ℚ → ℚ) (h2 : ℚ → ℚ) (m : Int) (R1 R2 : List pdd)
    (sampler1 sampler2 : Int → List ℚ → Option (List ℚ) → List Nat)
    (aggregation_f : ℚ → ℚ → ℚ → ℚ) (R1_filter R2_filter : ℚ → ℚ → Bool)
    (filtered_estimator : Bool) (filter_selectivity : ℚ)
    (recompute_normalisation recompute_cdf : Bool) (rnd : Nat → Nat) (c : Cache)
    (h : sampler1 (S_size m filter_selectivity)
        (refresh_cache h1 h2 R1 R2 R1_filter R2_filter recompute_normalisation recompute_cdf
          c).R1_sample_weights
        (refresh_cache h1 h2 R1 R2 R1_filter R2_filter recompute_normalisation recompute_cdf
          c).R1_sample_weights_cdf
      = sampler2 (S_size m filter_selectivity)
        (refresh_cache h1 h2 R1 R2 R1_filter R2_filter recompute_normalisation recompute_cdf
          c).R1_sample_weights
        (refresh_cache h1 h2 R1 R2 R1_filter R2_filter recompute_normalisation recompute_cdf
          c).R1_sample_weights_cdf) :
    generic_sample_join h1 h2 m R1 R2 sampler1 aggregation_f R1_filter R2_filter
      filtered_estimator filter_selectivity recompute_normalisation recompute_cdf rnd c
    = generic_sample_join h1 h2 m R1 R2 sampler2 aggregation_f R1_filter R2_filter
      filtered_estimator filter_selectivity recompute_normalisation recompute_cdf rnd c := by
  unfold generic_sample_join sample_and_estimate
  simp only [h]

/-- C17: across every sequence of calls to `generic_sample_join` (starting from the static
variables as first initialised), the cached CDF handed to the range sampler in the next
call is absent or equal to `get_cdf` of the sampling weight vector handed with it; a call
with recompute_normalisation = true and recompute_cdf = false hands the sampler no CDF; a
call with recompute_cdf = true hands it the CDF of the current weights; so the CDF that
`exact_sampler` samples from is always `get_cdf` of the current weights, and a CDF built
before the normalisation was recomputed is never handed over. The range sampler enters the
call only through its value on these arguments. -/
theorem cdf_handed_to_sampler_is_current (first_R1 : List pdd) (calls : List Call)
    (h1 : ℚ → ℚ → ℚ) (h2 : ℚ → ℚ) (m : Int) (R1 R2 : List pdd)
    (aggregation_f : ℚ → ℚ → ℚ → ℚ) (R1_filter R2_filter : ℚ → ℚ → Bool)
    (filtered_estimator : Bool) (filter_selectivity : ℚ)
    (recompute_normalisation recompute_cdf : Bool) (rnd : Nat → Nat) :
    cdf_current (refresh_cache h1 h2 R1 R2 R1_filter R2_filter recompute_normalisation
      recompute_cdf (cache_after (Cache.init first_R1) calls)) ∧
    (refresh_cache h1 h2 R1 R2 R1_filter R2_filter true false
      (cache_after (Cache.init first_R1) calls)).R1_sample_weights_cdf = none ∧
    (refresh_cache h1 h2 R1 R2 R1_filter R2_filter recompute_normalisation true
      (cache_after (Cache.init first_R1) calls)).R1_sample_weights_cdf
      = some (get_cdf (refresh_cache h1 h2 R1 R2 R1_filter R2_filter recompute_normalisation
          true (cache_after (Cache.init first_R1) calls)).R1_sample_weights) ∧
    exact_sampler_cdf
      (refresh_cache h1 h2 R1 R2 R1_filter R2_filter recompute_normalisation recompute_cdf
        (cache_after (Cache.init first_R1) calls)).R1_sample_weights
      (refresh_cache h1 h2 R1 R2 R1_filter R2_filter recompute_normalisation recompute_cdf
        (cache_after (Cache.init first_R1) calls)).R1_sample_weights_cdf
      = get_cdf (refresh_cache h1 h2 R1 R2 R1_filter R2_filter recompute_normalisation
          recompute_cdf (cache_after (Cache.init first_R1) calls)).R1_sample_weights ∧
    ∀ sampler1 sampler2 : Int → List ℚ → Option (List ℚ) → List Nat,
      sampler1 (S_size m filter_selectivity)
        (refresh_cache h1 h2 R1 R2 R1_filter R2_filter recompute_normalisation recompute_cdf
          (cache_after (Cache.init first_R1) calls)).R1_sample_weights
        (refresh_cache h1 h2 R1 R2 R1_filter R2_filter recompute_normalisation recompute_cdf
          (cache_after (Cache.init first_R1) calls)).R1_sample_weights_cdf
      = sampler2 (S_size m filter_selectivity)
        (refresh_cache h1 h2 R1 R2 R1_filter R2_filter recompute_normalisation recompute_cdf
          (cache_after (Cache.init first_R1) calls)).R1_sample_weights
        (refresh_cache h1 h2 R1 R2 R1_filter R2_filter recompute_normalisation recompute_cdf
          (cache_after (Cache.init first_R1) calls)).R1_sample_weights_cdf →
      generic_sample_join h1 h2 m R1 R2 sampler1 aggregation_f R1_filter R2_filter
        filtered_estimator filter_selectivity recompute_normalisation recompute_cdf rnd
        (cache_after (Cache.init first_R1) calls)
      = generic_sample_join h1 h2 m R1 R2 sampler2 aggregation_f R1_filter R2_filter
        filtered_estimator filter_selectivity recompute_normalisation recompute_cdf rnd
        (cache_after (Cache.init first_R1) calls) := by
  have hc := cdf_current_after calls (Cache.init first_R1) (cdf_current_init first_R1)
  have hcur := cdf_current_refresh h1 h2 R1 R2 R1_filter R2_filter recompute_normalisation
    recompute_cdf _ hc
  refine ⟨hcur, ?_, ?_, ?_, ?_⟩
  · simp [refresh_cache, recompute]
  · cases recompute_normalisation <;> simp [refresh_cache, recompute]
  · rcases hcur with h | h <;> rw [h] <;> rfl
  · intro sampler1 sampler2 h
    exact call_sampler_args _ _ _ _ _ _ _ _ _ _ _ _ _ _ _ _ h

/-- The cache part of a call with recompute_normalisation = true replaces a CDF cached
before: after a call that cached the CDF of the weights [1, 1, 1], a call on other weights
with recompute_cdf = false caches no CDF. -/
theorem stale_cdf_dropped :
    (example_cache true).R1_sample_weights_cdf = some [1, 2, 3] ∧
    (refresh_cache h1_weighted h2_weighted example_R1 example_R2 no_filter no_filter true
      false (example_cache true)).R1_sample_weights_cdf = none := by
  refine ⟨rfl, ?_⟩
  simp [refresh_cache, recompute]

theorem example_exact_aggregate :
    exact_filtered_aggregate aggregate_f no_filter no_filter example_R1 example_R2 = 40 := by
  simp [exact_filtered_aggregate, join_pairs, example_R1, example_R2, aggregate_f, no_filter,
    product_cons_left, product_nil_left]
  norm_num

/-! ## Second part of the reservoir sampler claims -/

theorem allSome_congr {α β : Type} (f g : α → Option β) (l : List α)
    (h : ∀ a ∈ l, f a = g a) : allSome f l = allSome g l := by
  induction l with
  | nil => rfl
  | cons a rest ih =>
    simp only [allSome, h a (List.mem_cons_self _ _),
      ih (fun x hx => h x (List.mem_cons_of_mem _ hx))]

theorem draw_keys_take (pow : ℚ → ℚ → ℚ) (rnd : Nat → ℚ) (w : List Int) (n count : Nat)
    (h : count ≤ n) : draw_keys pow rnd (w.take n) count = draw_keys pow rnd w count := by
  unfold draw_keys
  apply allSome_congr
  intro i hi
  rw [List.mem_range] at hi
  simp only [List.getElem?_take_of_lt (show i < n by omega)]

theorem seed_reservoir_take {D : Type} (keys : List ℚ) (data : List D) (n m : Nat)
    (h : m ≤ n) : seed_reservoir keys (data.take n) m = seed_reservoir keys data m := by
  unfold seed_reservoir
  rw [allSome_congr _ (fun i => match keys[i]?, data[i]? with
      | some k, some d => some (k, d)
      | _, _ => none)]
  intro i hi
  rw [List.mem_range] at hi
  simp only [List.getElem?_take_of_lt (show i < n by omega)]

theorem reservoir_step_take {D : Type} (keys : List ℚ) (data : List D) (n i : Nat)
    (result : List (ℚ × D)) (h : i < n) :
    reservoir_step keys (data.take n) result i = reservoir_step keys data result i := by
  unfold reservoir_step
  simp only [List.getElem?_take_of_lt h]

theorem reservoir_loop_take {D : Type} (keys : List ℚ) (data : List D) (n : Nat)
    (idxs : List Nat) :
    ∀ result : List (ℚ × D), (∀ i ∈ idxs, i < n) →
      reservoir_loop keys (data.take n) idxs result = reservoir_loop keys data idxs result := by
  induction idxs with
  | nil => intro result _; rfl
  | cons i rest ih =>
    intro result h
    simp only [reservoir_loop, reservoir_step_take keys data n i result
      (h i (List.mem_cons_self _ _))]
    cases reservoir_step keys data result i with
    | none => rfl
    | some result1 => exact ih result1 (fun x hx => h x (List.mem_cons_of_mem _ hx))

theorem skip_items_take (w : List Int) (n : Nat) :
    ∀ (left : Nat) (xw : ℚ) (i : Nat),
      skip_items (w.take n) n left xw i = skip_items w n left xw i := by
  intro left
  induction left with
  | zero => intro xw i; rfl
  | succ left ih =>
    intro xw i
    unfold skip_items
    split
    · rename_i hcond
      simp only [List.getElem?_take_of_lt hcond.2, ih]
    · rfl

theorem jump_loop_take {D : Type} (pow : ℚ → ℚ → ℚ) (log : ℚ → ℚ) (rnd : Nat → ℚ)
    (data : List D) (w : List Int) (n : Nat) :
    ∀ (fuel i : Nat) (result : List (ℚ × D)) (drawn : Nat),
      jump_loop pow log rnd (data.take n) (w.take n) n fuel i result drawn
        = jump_loop pow log rnd data w n fuel i result drawn := by
  intro fuel
  induction fuel with
  | zero => intro i result drawn; rfl
  | succ fuel ih =>
    intro i result drawn
    cases result with
    | nil => rfl
    | cons least rest =>
      simp only [jump_loop, skip_items_take]
      cases skip_items w n (n - i) (log (rnd drawn) / log least.1) i with
      | none => rfl
      | some r =>
        obtain ⟨xw1, i1⟩ := r
        by_cases hge : i1 ≥ n
        · simp only [hge, if_true]
        · simp only [hge, if_false, List.getElem?_take_of_lt (show i1 < n by omega), ih]

theorem algorithm_A_take {D : Type} (pow : ℚ → ℚ → ℚ) (rnd : Nat → ℚ) (data : List D)
    (w : List Int) (n m : Nat) (hmn : m ≤ n) :
    weighted_wor_reservoir_sample pow rnd (data.take n) (w.take n) n m
      = weighted_wor_reservoir_sample pow rnd data w n m := by
  unfold weighted_wor_reservoir_sample
  rw [draw_keys_take pow rnd w n n (le_refl n)]
  cases draw_keys pow rnd w n with
  | none => rfl
  | some keys =>
    simp only [seed_reservoir_take keys data n m hmn]
    cases seed_reservoir keys data m with
    | none => rfl
    | some result =>
      simp only
      apply reservoir_loop_take
      intro i hi
      rw [List.mem_range'_1] at hi
      omega

theorem algorithm_A_exp_take {D : Type} (pow : ℚ → ℚ → ℚ) (log : ℚ → ℚ) (rnd : Nat → ℚ)
    (data : List D) (w : List Int) (n m : Nat) (hmn : m ≤ n) (fuel : Nat) :
    weighted_wor_reservoir_sample_exp pow log rnd (data.take n) (w.take n) n m fuel
      = weighted_wor_reservoir_sample_exp pow log rnd data w n m fuel := by
  unfold weighted_wor_reservoir_sample_exp
  rw [draw_keys_take pow rnd w n m hmn]
  cases draw_keys pow rnd w m with
  | none => rfl
  | some keys =>
    simp only [seed_reservoir_take keys data n m hmn]
    cases seed_reservoir keys data m with
    | none => rfl
    | some result =>
      simp only
      exact jump_loop_take pow log rnd data w n fuel m result m

theorem allSome_all {α β : Type} (f : α → Option β) (l : List α) (r : List β)
    (h : allSome f l = some r) : ∀ a ∈ l, ∃ b, f a = some b := by
  induction l generalizing r with
  | nil => intro a ha; cases ha
  | cons x rest ih =>
    intro a ha
    simp only [allSome] at h
    cases hfx : f x with
    | none => simp [hfx] at h
    | some b =>
      cases hrest : allSome f rest with
      | none => simp [hfx, hrest] at h
      | some bs =>
        rcases List.mem_cons.mp ha with rfl | ha
        · exact ⟨b, hfx⟩
        · exact ih bs hrest a ha

theorem draw_keys_none (pow : ℚ → ℚ → ℚ) (rnd : Nat → ℚ) (w : List Int) (count : Nat)
    (h : w.length < count) : draw_keys pow rnd w count = none := by
  cases hk : draw_keys pow rnd w count with
  | none => rfl
  | some keys =>
    exfalso
    unfold draw_keys at hk
    obtain ⟨b, hb⟩ := allSome_all _ _ _ hk w.length (List.mem_range.mpr h)
    simp [List.getElem?_eq_none (le_refl w.length)] at hb

theorem seed_reservoir_none {D : Type} (keys : List ℚ) (data : List D) (m : Nat)
    (h : keys.length < m) : seed_reservoir keys data m = none := by
  cases hk : seed_reservoir keys data m with
  | none => rfl
  | some result =>
    exfalso
    unfold seed_reservoir at hk
    split at hk
    · cases hk
    · rename_i entries hentries
      obtain ⟨b, hb⟩ := allSome_all _ _ _ hentries keys.length (List.mem_range.mpr h)
      simp [List.getElem?_eq_none (le_refl keys.length)] at hb

theorem reservoir_samplers_size_aux {D : Type} (pow : ℚ → ℚ → ℚ) (log : ℚ → ℚ)
    (rnd : Nat → ℚ) (data : List D) (w : List Int) (n m : Nat)
    (hmn : m ≤ n) (hm : 0 < m) (hd : n ≤ data.length) (hw : n ≤ w.length) (fuel : Nat) :
    weighted_wor_reservoir_sample_exp pow log rnd data w n m fuel ≠ Run.undefined := by
  obtain ⟨keys1, hkeys1, _⟩ := draw_keys_some pow rnd w m (by omega)
  obtain ⟨seed, hseed, hseedinv⟩ := seed_reservoir_inv keys1 data m (by omega) (by omega)
  intro hundef
  unfold weighted_wor_reservoir_sample_exp at hundef
  simp only [hkeys1, hseed] at hundef
  rcases jump_loop_size pow log rnd data w n m hm hd hw fuel m seed m
      (reservoir_inv_length hseedinv) with h | h
  · rw [h] at hundef; cases hundef
  · obtain ⟨final, h, _⟩ := h
    rw [h] at hundef; cases hundef

/-- C20: for all n ≥ m > 0 with `data` and `w` holding at least n items, both reservoir
samplers read `data[i]` and `w[i]` only at indices below n (run on the arrays cut to their
first n items they do exactly what they do on the whole arrays), read `keys[i]` only inside
the keys array (which has m entries in the exponential-jump variant) and read the minimum
`result.begin()` only of a non-empty reservoir: neither runs into undefined behaviour. With
m = 0 < n the seeded reservoir is empty and its minimum is read; with m > n the index n is
read, of the keys array of n entries in Algorithm A and of the arrays in the variant. -/
theorem reservoir_samplers_index_safe {D : Type} (pow : ℚ → ℚ → ℚ) (log : ℚ → ℚ)
    (rnd : Nat → ℚ) (data : List D) (w : List Int) (n m : Nat)
    (hmn : m ≤ n) (hm : 0 < m) (hd : n ≤ data.length) (hw : n ≤ w.length) :
    (weighted_wor_reservoir_sample pow rnd (data.take n) (w.take n) n m
        = weighted_wor_reservoir_sample pow rnd data w n m ∧
      ∃ result, weighted_wor_reservoir_sample pow rnd data w n m = some result) ∧
    (∀ fuel,
      weighted_wor_reservoir_sample_exp pow log rnd (data.take n) (w.take n) n m fuel
        = weighted_wor_reservoir_sample_exp pow log rnd data w n m fuel ∧
      weighted_wor_reservoir_sample_exp pow log rnd data w n m fuel ≠ Run.undefined) ∧
    (∃ keys, draw_keys pow rnd w m = some keys ∧ keys.length = m) ∧
    ((∀ keys : List ℚ, seed_reservoir keys data 0 = some []) ∧
      (∀ (keys : List ℚ) (i : Nat), reservoir_step keys data [] i = none) ∧
      weighted_wor_reservoir_sample pow rnd data w n 0 = none) ∧
    (∀ fuel,
      weighted_wor_reservoir_sample_exp pow log rnd data w n 0 (fuel + 1) = Run.undefined) ∧
    (∀ big, n < big → weighted_wor_reservoir_sample pow rnd data w n big = none) ∧
    (∀ big, n < big → ∀ fuel,
      weighted_wor_reservoir_sample_exp pow log rnd (data.take n) (w.take n) n big fuel
        = Run.undefined) := by
  obtain ⟨keys, result, hkeys, hlen, hA, _⟩ := algorithm_A_inv pow rnd data w n m hmn hm hd hw
  have hseed0 : ∀ keys : List ℚ, seed_reservoir keys data 0 = some [] := by
    intro keys0
    simp [seed_reservoir, allSome]
  have hstep0 : ∀ (keys : List ℚ) (i : Nat), reservoir_step keys data [] i = none := by
    intro keys0 i
    simp [reservoir_step]
  refine ⟨⟨algorithm_A_take pow rnd data w n m hmn, result, hA⟩, ?_,
    draw_keys_some pow rnd w m (by omega), ⟨hseed0, hstep0, ?_⟩, ?_, ?_, ?_⟩
  · intro fuel
    refine ⟨algorithm_A_exp_take pow log rnd data w n m hmn fuel, ?_⟩
    exact (reservoir_samplers_size_aux pow log rnd data w n m hmn hm hd hw fuel)
  · unfold weighted_wor_reservoir_sample
    simp only [hkeys, hseed0]
    obtain ⟨k, hk⟩ : ∃ k, n = k + 1 := ⟨n - 1, by omega⟩
    subst hk
    simp only [Nat.sub_zero, List.range'_succ, reservoir_loop, hstep0]
  · intro fuel
    unfold weighted_wor_reservoir_sample_exp
    obtain ⟨keys0, hkeys0, _⟩ := draw_keys_some pow rnd w 0 (by omega)
    simp only [hkeys0, hseed0, jump_loop]
  · intro big hbig
    unfold weighted_wor_reservoir_sample
    simp only [hkeys, seed_reservoir_none keys data big (by omega)]
  · intro big hbig fuel
    unfold weighted_wor_reservoir_sample_exp
    rw [draw_keys_none pow rnd (w.take n) big (by rw [List.length_take]; omega)]

/-- Witness of C20: four rows of weight 1 and m = 2. -/
theorem reservoir_samplers_index_safe_witness :
    (weighted_wor_reservoir_sample example_pow example_rnd (example_data.take 4)
        (example_w.take 4) 4 2
        = weighted_wor_reservoir_sample example_pow example_rnd example_data example_w 4 2 ∧
      ∃ result, weighted_wor_reservoir_sample example_pow example_rnd example_data example_w
        4 2 = some result) ∧
    (∀ fuel,
      weighted_wor_reservoir_sample_exp example_pow example_log example_rnd
        (example_data.take 4) (example_w.take 4) 4 2 fuel
        = weighted_wor_reservoir_sample_exp example_pow example_log example_rnd example_data
          example_w 4 2 fuel ∧
      weighted_wor_reservoir_sample_exp example_pow example_log example_rnd example_data
        example_w 4 2 fuel ≠ Run.undefined) ∧
    (∃ keys, draw_keys example_pow example_rnd example_w 2 = some keys ∧ keys.length = 2) ∧
    ((∀ keys : List ℚ, seed_reservoir keys example_data 0 = some []) ∧
      (∀ (keys : List ℚ) (i : Nat), reservoir_step keys example_data [] i = none) ∧
      weighted_wor_reservoir_sample example_pow example_rnd example_data example_w 4 0
        = none) ∧
    (∀ fuel,
      weighted_wor_reservoir_sample_exp example_pow example_log example_rnd example_data
        example_w 4 0 (fuel + 1) = Run.undefined) ∧
    (∀ big, 4 < big →
      weighted_wor_reservoir_sample example_pow example_rnd example_data example_w 4 big
        = none) ∧
    (∀ big, 4 < big → ∀ fuel,
      weighted_wor_reservoir_sample_exp example_pow example_log example_rnd
        (example_data.take 4) (example_w.take 4) 4 big fuel = Run.undefined) :=
  reservoir_samplers_index_safe example_pow example_log example_rnd example_data example_w
    4 2 (by decide) (by decide) (by decide) (by decide)

theorem mass_self (w : List Int) (c : Nat) (hc : c < w.length) :
    mass w c c = (w[c] : ℚ) := by
  unfold mass
  have h : c < (w.take (c + 1)).length := by simp; omega
  rw [List.drop_eq_getElem_cons h]
  have hlen : (List.drop (c + 1) (List.take (c + 1) w)) = [] := by
    apply List.drop_eq_nil_of_le
    simp
  simp [hlen, List.getElem_take]

theorem mass_succ (w : List Int) (c j : Nat) (hc : c < w.length) (hj : c ≤ j) :
    mass w c j = (w[c] : ℚ) + mass w (c + 1) j := by
  unfold mass
  have h : c < (w.take (j + 1)).length := by simp; omega
  rw [List.drop_eq_getElem_cons h]
  simp [List.getElem_take]

theorem skip_items_stops (w : List Int) (n left : Nat) (xw : ℚ) (i : Nat) (h : xw ≤ 0) :
    skip_items w n left xw i = some (xw, i) := by
  cases left with
  | zero => rfl
  | succ left =>
    unfold skip_items
    have : ¬ (xw > 0 ∧ i < n) := fun hc => absurd hc.1 (not_lt.mpr h)
    simp only [this, if_false]

/-- The inner loop of lines 262-265 overshoots: when j = c + d is the first index whose
cumulative weight `w[c] + ... + w[j]` reaches the threshold xw > 0, the loop that starts at
c leaves the stream position at j + 1. -/
theorem skip_items_lands_after (w : List Int) (n : Nat) (hw : n ≤ w.length) :
    ∀ (d c : Nat) (xw : ℚ), c + d < n → 0 < xw →
      (∀ k, k < d → mass w c (c + k) < xw) → xw ≤ mass w c (c + d) →
      ∀ left, d + 1 ≤ left →
        skip_items w n left xw c = some (xw - mass w c (c + d), c + d + 1) := by
  intro d
  induction d with
  | zero =>
    intro c xw hc hxw _ hreach left hleft
    obtain ⟨l, rfl⟩ : ∃ l, left = l + 1 := ⟨left - 1, by omega⟩
    have hlt : c < w.length := by omega
    have hcn : c < n := by omega
    rw [Nat.add_zero, mass_self w c hlt] at hreach
    unfold skip_items
    simp only [hxw, hcn, and_self, if_true, gt_iff_lt, List.getElem?_eq_getElem hlt]
    rw [skip_items_stops w n l _ _ (by linarith)]
    simp only [Nat.add_zero, mass_self w c hlt]
  | succ d ih =>
    intro c xw hc hxw hbelow hreach left hleft
    obtain ⟨l, rfl⟩ : ∃ l, left = l + 1 := ⟨left - 1, by omega⟩
    have hlt : c < w.length := by omega
    have hcn : c < n := by omega
    have h0 := hbelow 0 (by omega)
    rw [Nat.add_zero, mass_self w c hlt] at h0
    unfold skip_items
    simp only [hxw, hcn, and_self, if_true, gt_iff_lt, List.getElem?_eq_getElem hlt]
    have hidx : c + (d + 1) = c + 1 + d := by omega
    rw [ih (c + 1) (xw - (w[c] : ℚ)) (by omega) (by linarith) ?_ ?_ l (by omega)]
    · rw [hidx, mass_succ w c (c + 1 + d) hlt (by omega)]
      congr 2
      ring
    · intro k hk
      have := hbelow (k + 1) (by omega)
      have hk1 : c + (k + 1) = c + 1 + k := by omega
      rw [hk1, mass_succ w c (c + 1 + k) hlt (by omega)] at this
      linarith
    · rw [hidx, mass_succ w c (c + 1 + d) hlt (by omega)] at hreach
      linarith

/-- C13: the code lands one item past the crossing item. On the stream 'a','b','c','d' of
weights 1 with m = 2 and the draws 1/4, 1/2, 1/4, 1/2, 1/2, the first jump starts at
position c = 2 with threshold xw = 1; the first index whose cumulative weight reaches 1 is
j = 2 (item 'c'), yet the inner loop leaves i = 3 and the entry inserted is made from
data[3] = 'd' and w[3]: the returned reservoir is [(1/2,'b'), (5/8,'d')], and item 'c' is
never a candidate. The second jump starts at c = 3 with threshold 1, its crossing item is
index 3, and the code exits without inserting anything. -/
theorem exp_jump_lands_past_crossing_item :
    example_log (jump_rnd 2) / example_log (1 / 4) = 1 ∧
    crossing_index example_w 4 2 1 = some 2 ∧
    skip_items example_w 4 (4 - 2) 1 2 = some (0, 3) ∧
    crossing_index example_w 4 3 1 = some 3 ∧
    skip_items example_w 4 (4 - 3) 1 3 = some (0, 4) ∧
    weighted_wor_reservoir_sample_exp example_pow example_log jump_rnd example_data
      example_w 4 2 3 = Run.done [(1 / 2, 'b'), (5 / 8, 'd')] := by
  refine ⟨?_, ?_, ?_, ?_, ?_, ?_⟩
  · norm_num [example_log, jump_rnd]
  · norm_num [crossing_index, mass, example_w, List.range, List.range.loop, List.find?]
  · norm_num [skip_items, example_w]
  · norm_num [crossing_index, mass, example_w, List.range, List.range.loop, List.find?]
  · norm_num [skip_items, example_w]
  · norm_num [weighted_wor_reservoir_sample_exp, draw_keys, allSome, seed_reservoir,
      jump_loop, skip_items, multimap_insert, example_pow, example_log, jump_rnd,
      example_data, example_w, List.range, List.range.loop]

end SampleJoins
